import Mathlib

/-!
Verification development for the motion-graphics engine:
animation evaluation (`src/lib/motion-engine/core.ts`), scene composition and
effect/transition resolution (`src/lib/motion-engine/effects.ts`), and the
render-job orchestrator (`MotionRenderer`).

JavaScript numbers are modelled as rationals (ℚ); JS runtime values are
modelled by the inductive `Value` below.  External library functions that the
source defers to (remotion's non-linear easing curves, platform float
formatting) are taken as opaque parameters of the embedded functions, so that
every theorem quantifies over them.
-/

namespace MotionGraphics

/-- A JavaScript runtime value as used by the engine: numbers, strings,
booleans, `undefined`, and plain objects (insertion-ordered field lists). -/
inductive Value where
  | num : ℚ → Value
  | str : String → Value
  | boolean : Bool → Value
  | undefined : Value
  | obj : List (String × Value) → Value

/-- First-occurrence field lookup, the model of JS property access `o[k]`
(and of the `k in o` test, via `Option.isSome`). -/
def lookupField (k : String) : List (String × Value) → Option Value
  | [] => none
  | (k', v) :: rest => if k' = k then some v else lookupField k rest

/-- JS assignment `o[k] = v` on a plain object: overwrite the existing entry
in place, else append a new one at the end. -/
def setField : List (String × Value) → String → Value → List (String × Value)
  | [], k, v => [(k, v)]
  | (k', v') :: rest, k, v =>
      if k' = k then (k, v) :: rest else (k', v') :: setField rest k v

/-- JS truthiness of a `Value`. -/
def jsTruthy : Value → Bool
  | .num q => q ≠ 0
  | .str s => s ≠ ""
  | .boolean b => b
  | .undefined => false
  | .obj _ => true

/-- The easing names of `EasingType` in `core.ts`. -/
inductive EasingType where
  | linear | ease | easeIn | easeOut | easeInOut
  | spring | bounce | elastic | back | cubicBezier
deriving DecidableEq, Repr

/-- The non-linear easing families (`ease`, `ease-in`, …, `spring`, `bounce`)
are evaluated by the external remotion library; an embedding takes them as an
opaque function from easing name and progress to eased progress. -/
abbrev EasingImpl := EasingType → ℚ → ℚ

/-- `MotionEngine.applyEasing` (core.ts): `linear` returns the progress
unchanged; `ease`/`ease-in`/`ease-out`/`ease-in-out`/`spring`/`bounce` defer
to remotion (the opaque `re`); every other name falls through the switch's
`default` branch and returns the progress unchanged. -/
def applyEasing (re : EasingImpl) (progress : ℚ) (easing : EasingType) : ℚ :=
  match easing with
  | .linear => progress
  | .ease => re .ease progress
  | .easeIn => re .easeIn progress
  | .easeOut => re .easeOut progress
  | .easeInOut => re .easeInOut progress
  | .spring => re .spring progress
  | .bounce => re .bounce progress
  | _ => progress

/-- A keyframe of `core.ts` (`frame`, `value`, optional easing override). -/
structure Keyframe where
  frame : ℚ
  value : Value
  easing : Option EasingType := none

/-- An `Animation` of `core.ts`. -/
structure Animation where
  id : String := ""
  property : String
  keyframes : List Keyframe
  easing : EasingType
  duration : ℚ := 0
  delay : ℚ := 0
  loop : Bool := false
  yoyo : Bool := false

/-- Stable insertion into a list sorted ascending by `key` (the earlier
element stays in front of later elements with an equal key, matching the
stable JS `Array.prototype.sort`). -/
def insertByKey {α : Type} (key : α → ℚ) (x : α) : List α → List α
  | [] => [x]
  | y :: rest => if key y < key x then y :: insertByKey key x rest else x :: y :: rest

/-- Stable sort ascending by `key`: the model of the JS in-place
`arr.sort((a, b) => key(a) - key(b))`. -/
def sortByKey {α : Type} (key : α → ℚ) : List α → List α
  | [] => []
  | x :: rest => insertByKey key x (sortByKey key rest)

theorem insertByKey_perm {α : Type} (key : α → ℚ) (x : α) (l : List α) :
    (insertByKey key x l).Perm (x :: l) := by
  induction l with
  | nil => simp [insertByKey]
  | cons y rest ih =>
      simp only [insertByKey]
      split
      · exact (List.Perm.cons y ih).trans (List.Perm.swap x y rest)
      · exact List.Perm.refl _

theorem sortByKey_perm {α : Type} (key : α → ℚ) (l : List α) :
    (sortByKey key l).Perm l := by
  induction l with
  | nil => simp [sortByKey]
  | cons x rest ih =>
      exact (insertByKey_perm key x (sortByKey key rest)).trans (List.Perm.cons x ih)

theorem insertByKey_sorted {α : Type} (key : α → ℚ) (x : α) (l : List α)
    (h : l.Pairwise (fun a b => key a ≤ key b)) :
    (insertByKey key x l).Pairwise (fun a b => key a ≤ key b) := by
  induction l with
  | nil => simp [insertByKey]
  | cons y rest ih =>
      simp only [insertByKey]
      rcases List.pairwise_cons.mp h with ⟨hy, hrest⟩
      split
      · rename_i hlt
        refine List.pairwise_cons.mpr ⟨?_, ih hrest⟩
        intro b hb
        have hperm := insertByKey_perm key x rest
        rcases List.mem_cons.mp ((hperm.mem_iff).mp hb) with hb' | hb'
        · subst hb'; exact le_of_lt hlt
        · exact hy b hb'
      · rename_i hnlt
        refine List.pairwise_cons.mpr ⟨?_, h⟩
        intro b hb
        rcases List.mem_cons.mp hb with hb' | hb'
        · subst hb'; exact le_of_not_lt hnlt
        · exact le_trans (le_of_not_lt hnlt) (hy b hb')

theorem sortByKey_sorted {α : Type} (key : α → ℚ) (l : List α) :
    (sortByKey key l).Pairwise (fun a b => key a ≤ key b) := by
  induction l with
  | nil => simp [sortByKey]
  | cons x rest ih => exact insertByKey_sorted key x _ ih

theorem sortByKey_of_sorted {α : Type} (key : α → ℚ) (l : List α)
    (h : l.Pairwise (fun a b => key a ≤ key b)) :
    sortByKey key l = l := by
  induction l with
  | nil => rfl
  | cons x rest ih =>
      rcases List.pairwise_cons.mp h with ⟨hx, hrest⟩
      have hrec : sortByKey key rest = rest := ih hrest
      simp only [sortByKey, hrec]
      cases rest with
      | nil => rfl
      | cons y t =>
          have : ¬ key y < key x := not_lt.mpr (hx y (by simp))
          simp [insertByKey, this]

mutual

/-- `MotionEngine.interpolateValue` (core.ts): linear interpolation of two
numbers via remotion's `interpolate(progress, [0,1], [from,to])`; recursive
field-by-field interpolation when both ends are objects, fields present only
in `from` passing through; for every other pairing a binary switch at
progress `0.5`. -/
def interpolateValue : Value → Value → ℚ → Value
  | .num a, .num b, p => .num (a + p * (b - a))
  | .obj fa, .obj tb, p => .obj (interpolateFields fa tb p)
  | f, t, p => if p < (1 : ℚ)/2 then f else t

/-- The `for (const key in from)` loop body of `interpolateValue`. -/
def interpolateFields :
    List (String × Value) → List (String × Value) → ℚ → List (String × Value)
  | [], _, _ => []
  | (k, v) :: rest, tb, p =>
      (k, match lookupField k tb with
          | some tv => interpolateValue v tv p
          | none => v) :: interpolateFields rest tb p

end

/-- Truncation toward zero, as JS `%` truncates its implied quotient. -/
def jsTrunc (q : ℚ) : ℤ := if 0 ≤ q then ⌊q⌋ else ⌈q⌉

/-- The JS remainder operator `a % b` on numbers (`b ≠ 0`). -/
def jsRem (a b : ℚ) : ℚ := a - b * jsTrunc (a / b)

/-- The bracketing loop of `calculateAnimationValue` (core.ts): scan adjacent
keyframe pairs `(current, next)`; on the first pair with
`current.frame <= currentFrame <= next.frame` interpolate with the effective
easing (`next.easing || animation.easing`); after the loop, `undefined`. -/
def findSegmentValue (re : EasingImpl) (animEasing : EasingType) (currentFrame : ℚ) :
    List Keyframe → Option Value
  | k1 :: k2 :: rest =>
      if k1.frame ≤ currentFrame ∧ currentFrame ≤ k2.frame then
        let progress := (currentFrame - k1.frame) / (k2.frame - k1.frame)
        let easedProgress := applyEasing re progress (k2.easing.getD animEasing)
        some (interpolateValue k1.value k2.value easedProgress)
      else findSegmentValue re animEasing currentFrame (k2 :: rest)
  | _ => none

/-- The "Handle looping" block of `calculateAnimationValue` (core.ts): when
`loop` is set and `duration > 0`, fold the adjusted frame by the JS `%`; on an
odd iteration with `yoyo` set, mirror it as `duration - folded`. -/
def foldFrame (a : Animation) (adjustedFrame : ℚ) : ℚ :=
  if a.loop && decide (0 < a.duration) then
    let folded := jsRem adjustedFrame a.duration
    if a.yoyo && decide (⌊adjustedFrame / a.duration⌋ % 2 = 1) then
      a.duration - folded
    else folded
  else adjustedFrame

/-- The tail of `calculateAnimationValue` (core.ts), applied to the sorted
keyframes: clamp to the first keyframe's value when
`currentFrame <= keyframes[0].frame`, clamp to the last keyframe's value when
`currentFrame >= keyframes[keyframes.length-1].frame`, and otherwise scan for
the bracketing pair. -/
def clampOrInterp (re : EasingImpl) (animEasing : EasingType) (currentFrame : ℚ) :
    List Keyframe → Option Value
  | [] => none
  | k0 :: rest =>
      if currentFrame ≤ k0.frame then some k0.value
      else if ((k0 :: rest).getLast (by simp)).frame ≤ currentFrame then
        some (((k0 :: rest).getLast (by simp)).value)
      else findSegmentValue re animEasing currentFrame (k0 :: rest)

/-- `MotionEngine.calculateAnimationValue` (core.ts): `undefined` for an empty
keyframe list or a delay-adjusted frame below zero; loop folding via
`foldFrame`; the keyframes sorted ascending by frame; then `clampOrInterp`. -/
def calculateAnimationValue (re : EasingImpl) (animation : Animation) (frame : ℚ) :
    Option Value :=
  if animation.keyframes.length = 0 then none
  else if frame - animation.delay < 0 then none
  else clampOrInterp re animation.easing (foldFrame animation (frame - animation.delay))
        (sortByKey (·.frame) animation.keyframes)

/-- The piece-collector of JS `path.split('.')`. -/
def splitPathAux : List Char → List Char → List String
  | [], acc => [String.mk acc.reverse]
  | c :: rest, acc =>
      if c = '.' then String.mk acc.reverse :: splitPathAux rest []
      else splitPathAux rest (c :: acc)

/-- JS `path.split('.')` as used by `setNestedProperty` (core.ts). -/
def splitPath (path : String) : List String := splitPathAux path.data []

/-- A concrete easing implementation for closed statements (the identity on
progress; `linear` never consults it anyway). -/
def re0 : EasingImpl := fun _ p => p

/-- A single-keyframe opacity animation whose keyframe sits at frame 10. -/
def animC3 : Animation :=
  { property := "opacity", keyframes := [{ frame := 10, value := .num 1 }],
    easing := .linear }

/-- A two-keyframe animation with delay 2 (keyframes at frames 5 and 30). -/
def animW3 : Animation :=
  { property := "opacity",
    keyframes := [{ frame := 5, value := .num 7 }, { frame := 30, value := .num 9 }],
    easing := .linear, delay := 2 }

/-- C3, counterexample: for the single-keyframe animation `animC3` (keyframe
frame 10, delay 0) queried at frame 5, the delay-adjusted frame 5 is at or
past 0 and strictly before the first keyframe's frame 10, yet
`calculateAnimationValue` returns the keyframe's value — not "no value" as the
claim demands. -/
theorem calculateAnimationValue_clamps_before_first_keyframe :
    calculateAnimationValue re0 animC3 5 = some (.num 1) ∧
    (0 : ℚ) ≤ 5 - animC3.delay ∧
    5 - animC3.delay < List.headD (animC3.keyframes.map (·.frame)) 0 ∧
    animC3.keyframes.map (·.frame) = [10] := by
  refine ⟨?_, by norm_num [animC3], by norm_num [animC3], by simp [animC3]⟩
  norm_num [calculateAnimationValue, animC3, clampOrInterp, sortByKey, insertByKey, foldFrame]

/-- C3 (amended): evaluation returns "no value" exactly when the delay-adjusted
frame is negative (or the keyframe list empty); a delay-adjusted frame at or
past 0 but at or before the first (sorted) keyframe's frame yields that
keyframe's value (clamping, not undefined); hence a single-keyframe animation
evaluates to its keyframe's value for every frame at or past the delay and to
"no value" before the delay. -/
theorem calculateAnimationValue_first_keyframe_clamp :
    (∀ (re : EasingImpl) (a : Animation) (f : ℚ) (k0 : Keyframe) (rest : List Keyframe),
        sortByKey (·.frame) a.keyframes = k0 :: rest →
        a.loop = false →
        ¬ f - a.delay < 0 →
        f - a.delay ≤ k0.frame →
        calculateAnimationValue re a f = some k0.value) ∧
    (∀ (re : EasingImpl) (a : Animation) (k : Keyframe) (f : ℚ),
        a.keyframes = [k] →
        calculateAnimationValue re a f =
          if f - a.delay < 0 then none else some k.value) := by
  constructor
  · intro re a f k0 rest hsort hloop hpos hle
    have hne : a.keyframes.length ≠ 0 := by
      intro h0
      have := (sortByKey_perm (·.frame) a.keyframes).length_eq
      rw [hsort, h0] at this
      simp at this
    have hfold : foldFrame a (f - a.delay) = f - a.delay := by
      simp [foldFrame, hloop]
    unfold calculateAnimationValue
    rw [if_neg hne, if_neg hpos, hfold, hsort]
    simp [clampOrInterp, hle]
  · intro re a k f hk
    have hne : a.keyframes.length ≠ 0 := by rw [hk]; simp
    have hsort : sortByKey (·.frame) a.keyframes = [k] := by
      rw [hk]; rfl
    unfold calculateAnimationValue
    rw [if_neg hne]
    by_cases hneg : f - a.delay < 0
    · rw [if_pos hneg, if_pos hneg]
    · rw [if_neg hneg, if_neg hneg, hsort]
      rcases le_or_lt (foldFrame a (f - a.delay)) k.frame with hle | hlt
      · simp [clampOrInterp, hle]
      · simp [clampOrInterp, not_le.mpr hlt, le_of_lt hlt, List.getLast]

/-- Witness for the amended C3 theorem: both parts applied at concrete inputs
(the two-keyframe `animW3` at frame 6 clamps to the first keyframe's value;
the single-keyframe `animC3` at frame 25 yields its keyframe's value). -/
theorem calculateAnimationValue_first_keyframe_clamp_witness :
    calculateAnimationValue re0 animW3 6 = some (.num 7) ∧
    calculateAnimationValue re0 animC3 25 = some (.num 1) := by
  constructor
  · exact calculateAnimationValue_first_keyframe_clamp.1 re0 animW3 6
      { frame := 5, value := .num 7 } [{ frame := 30, value := .num 9 }]
      rfl rfl (by norm_num [animW3]) (by norm_num [animW3])
  · have h := calculateAnimationValue_first_keyframe_clamp.2 re0 animC3
      { frame := 10, value := .num 1 } 25 rfl
    rw [h, if_neg (by norm_num [animC3])]

theorem interpolateFields_fst (fa tb : List (String × Value)) (p : ℚ) :
    (interpolateFields fa tb p).map Prod.fst = fa.map Prod.fst := by
  induction fa with
  | nil => rfl
  | cons kv rest ih =>
      cases kv with
      | mk k v => simp [interpolateFields, ih]

theorem interpolateFields_lookup (fa tb : List (String × Value)) (p : ℚ) (k : String) :
    lookupField k (interpolateFields fa tb p) =
      (lookupField k fa).map (fun v =>
        match lookupField k tb with
        | some tv => interpolateValue v tv p
        | none => v) := by
  induction fa with
  | nil => rfl
  | cons kv rest ih =>
      cases kv with
      | mk k' v =>
          by_cases hk : k' = k
          · subst hk
            simp [interpolateFields, lookupField]
          · simp [interpolateFields, lookupField, hk, ih]

/-- C10: when both interpolation endpoints are objects, the result carries
exactly the fields of the "from" object (same keys, same order); a field also
present in "to" is interpolated recursively, a field present only in "from"
is copied through, and a field present only in "to" does not appear. -/
theorem interpolateValue_object_from_fields :
    ∀ (fa tb : List (String × Value)) (p : ℚ),
      ∃ fs, interpolateValue (.obj fa) (.obj tb) p = .obj fs ∧
        fs.map Prod.fst = fa.map Prod.fst ∧
        (∀ k v, lookupField k fa = some v →
          lookupField k fs = some (match lookupField k tb with
            | some tv => interpolateValue v tv p
            | none => v)) ∧
        (∀ k, lookupField k fa = none → lookupField k fs = none) := by
  intro fa tb p
  refine ⟨interpolateFields fa tb p, rfl, interpolateFields_fst fa tb p, ?_, ?_⟩
  · intro k v hv
    rw [interpolateFields_lookup, hv]
    rfl
  · intro k hv
    rw [interpolateFields_lookup, hv]
    rfl

/-- Witness for C10: with `from = \x7bx: 0, w: 3\x7d`, `to = \x7bx: 10, z: 5\x7d`
and progress `1/2`, the shared field `x` interpolates to 5, the from-only
field `w` passes through, and the to-only field `z` is absent. -/
theorem interpolateValue_object_from_fields_witness :
    lookupField "x" (interpolateFields [("x", .num 0), ("w", .num 3)]
        [("x", .num 10), ("z", .num 5)] (1/2)) = some (.num 5) ∧
    lookupField "w" (interpolateFields [("x", .num 0), ("w", .num 3)]
        [("x", .num 10), ("z", .num 5)] (1/2)) = some (.num 3) ∧
    lookupField "z" (interpolateFields [("x", .num 0), ("w", .num 3)]
        [("x", .num 10), ("z", .num 5)] (1/2)) = none := by
  obtain ⟨fs, h1, h2, h3, h4⟩ := interpolateValue_object_from_fields
    [("x", .num 0), ("w", .num 3)] [("x", .num 10), ("z", .num 5)] (1/2)
  have hfs : interpolateFields [("x", .num 0), ("w", .num 3)]
      [("x", .num 10), ("z", .num 5)] (1/2) = fs := by
    have h1b : Value.obj (interpolateFields [("x", .num 0), ("w", .num 3)]
        [("x", .num 10), ("z", .num 5)] (1/2)) = .obj fs := h1
    injection h1b
  rw [hfs]
  refine ⟨?_, ?_, h4 "z" rfl⟩
  · have hx := h3 "x" (.num 0) rfl
    rw [hx]
    norm_num [lookupField, interpolateValue]
  · have hw := h3 "w" (.num 3) rfl
    rw [hw]
    rfl

/-- An effect instance attached to an element (`Effect` in core.ts); the
`type` is kept as a string, as the runtime compares it against strings such as
`"blend"` and `"mask"` that are outside the declared `EffectType` union. -/
structure Effect where
  id : String := ""
  type : String
  enabled : Bool := true
  parameters : List (String × Value) := []
  startFrame : Option ℚ := none
  endFrame : Option ℚ := none

/-- `MotionElement` of core.ts (fields not consulted by the verified
operations carry defaults). -/
structure MotionElement where
  id : String
  name : String := ""
  startFrame : ℚ
  endFrame : ℚ
  layer : ℚ
  visible : Bool := true
  locked : Bool := false
  properties : List (String × Value) := []
  animations : List Animation := []
  effects : List Effect := []

/-- The `direction` values of `SceneTransition` in core.ts. -/
inductive TransitionDirection where
  | dirIn | dirOut | dirCross
deriving DecidableEq, Repr

/-- `SceneTransition` of core.ts (`type` kept as a string, as the transition
registry is keyed by strings at runtime). -/
structure SceneTransition where
  id : String := ""
  type : String
  duration : ℚ
  easing : EasingType
  direction : Option TransitionDirection := none
  parameters : List (String × Value) := []

/-- `MotionScene` of core.ts. -/
structure MotionScene where
  id : String
  title : String := ""
  startFrame : ℚ
  endFrame : ℚ
  duration : ℚ
  elements : List MotionElement := []
  transitions : List SceneTransition := []

/-- `MotionProject` of core.ts (the fields the verified operations read). -/
structure MotionProject where
  id : String := ""
  title : String := ""
  duration : ℚ
  fps : ℚ := 30
  width : ℚ := 1920
  height : ℚ := 1080
  scenes : List MotionScene := []

/-- The composer's engine collaborator
`motionEngine.calculateElementPropertiesAtFrame`: an element and a frame give
a computed property bag.  (Its own mutation behaviour is the subject of the
heap-passing embedding below.) -/
abbrev PropsCalc := MotionElement → ℚ → List (String × Value)

/-- `MaskSettings` of `SceneComposer` (fields carry the JS values the source
assembles with `||` defaults). -/
structure MaskSettings where
  type : Value
  inverted : Value
  feather : Value
  expansion : Value
  path : Option Value

/-- JS `a || d` for a possibly-absent property read: the value when present
and truthy, else the default. -/
def jsOr (v : Option Value) (d : Value) : Value :=
  match v with
  | some v => if jsTruthy v then v else d
  | none => d

/-- `SceneComposer.isElementVisible` (effects.ts): out-of-range frames, a
computed opacity at or below 0, and locked elements are not visible; otherwise
the element's own `visible` flag decides. -/
def isElementVisible (calcProps : PropsCalc) (element : MotionElement) (frame : ℚ) : Bool :=
  if frame < element.startFrame || element.endFrame < frame then false
  else if (match lookupField "opacity" (calcProps element frame) with
           | some (.num q) => decide (q ≤ 0)
           | _ => false) then false
  else if element.locked then false
  else element.visible

/-- `SceneComposer.getElementBlendMode` (effects.ts): the first enabled
effect of type `"blend"` supplies `parameters.mode || 'normal'`; otherwise
`'normal'`. -/
def getElementBlendMode (element : MotionElement) : Value :=
  match element.effects.find? (fun e => e.type = "blend") with
  | some blendEffect =>
      if blendEffect.enabled then
        jsOr (lookupField "mode" blendEffect.parameters) (.str "normal")
      else .str "normal"
  | none => .str "normal"

/-- `SceneComposer.getElementMask` (effects.ts): the first effect of type
`"mask"`, when enabled, yields mask settings with `||` defaults. -/
def getElementMask (element : MotionElement) (_frame : ℚ) : Option MaskSettings :=
  match element.effects.find? (fun e => e.type = "mask") with
  | none => none
  | some maskEffect =>
      if !maskEffect.enabled then none
      else some
        { type := jsOr (lookupField "type" maskEffect.parameters) (.str "alpha")
          inverted := jsOr (lookupField "inverted" maskEffect.parameters) (.boolean false)
          feather := jsOr (lookupField "feather" maskEffect.parameters) (.num 0)
          expansion := jsOr (lookupField "expansion" maskEffect.parameters) (.num 0)
          path := lookupField "path" maskEffect.parameters }

/-- `SceneComposer.getTransitionStartFrame` (effects.ts): `in` transitions
anchor at the scene start, `out` transitions at `endFrame - duration`, and
everything else (`cross` or absent) centres within the scene. -/
def getTransitionStartFrame (transition : SceneTransition) (scene : MotionScene) : ℚ :=
  match transition.direction with
  | some .dirIn => scene.startFrame
  | some .dirOut => scene.endFrame - transition.duration
  | _ => scene.startFrame + (scene.duration - transition.duration) / 2

/-- JS `Array.prototype.findIndex`: the first index satisfying the predicate,
`-1` when none does. -/
def jsFindIndex {α : Type} (p : α → Bool) (l : List α) : ℤ :=
  match l.findIdx? p with
  | some i => (i : ℤ)
  | none => -1

/-- `SceneComposer.getPreviousScene` (effects.ts): `findIndex` by scene id
(`-1` when absent), then `scenes[idx-1]` when `idx > 0`. -/
def getPreviousScene (proj : Option MotionProject) (currentScene : MotionScene) :
    Option MotionScene :=
  match proj with
  | none => none
  | some project =>
      let idx : ℤ := jsFindIndex (fun s => s.id = currentScene.id) project.scenes
      if 0 < idx then project.scenes[(idx - 1).toNat]? else none

/-- `SceneComposer.getNextScene` (effects.ts): `findIndex` by scene id (`-1`
when absent), then `scenes[idx+1]` when `idx < length - 1`. -/
def getNextScene (proj : Option MotionProject) (currentScene : MotionScene) :
    Option MotionScene :=
  match proj with
  | none => none
  | some project =>
      let idx : ℤ := jsFindIndex (fun s => s.id = currentScene.id) project.scenes
      if idx < (project.scenes.length : ℤ) - 1 then
        project.scenes[(idx + 1).toNat]?
      else none

/-- An `ActiveTransition` of `SceneComposer` (effects.ts). -/
structure ActiveTransition where
  transition : SceneTransition
  progress : ℚ
  startFrame : ℚ
  endFrame : ℚ
  fromScene : Option MotionScene := none
  toScene : Option MotionScene := none

/-- `SceneComposer.calculateActiveTransitions` (effects.ts): a transition is
active when `startFrame <= frame <= startFrame + duration`; its progress is
`(frame - startFrame) / duration`. -/
def calculateActiveTransitions (proj : Option MotionProject) (scene : MotionScene)
    (frame : ℚ) : List ActiveTransition :=
  scene.transitions.filterMap (fun transition =>
    let startFrame := getTransitionStartFrame transition scene
    let endFrame := startFrame + transition.duration
    if startFrame ≤ frame ∧ frame ≤ endFrame then
      some { transition := transition
             progress := (frame - startFrame) / transition.duration
             startFrame := startFrame
             endFrame := endFrame
             fromScene := getPreviousScene proj scene
             toScene := getNextScene proj scene }
    else none)

/-- A `CompositionLayer` of `SceneComposer` (effects.ts). -/
structure CompositionLayer where
  element : MotionElement
  computedProperties : List (String × Value)
  visible : Bool
  blendMode : Value
  mask : Option MaskSettings

/-- A `SceneComposition` of `SceneComposer` (effects.ts); `timestamp` models
`Date.now()` and is supplied by the caller. -/
structure SceneComposition where
  scene : MotionScene
  layers : List CompositionLayer
  activeTransitions : List ActiveTransition
  frame : ℚ
  timestamp : ℤ

/-- `SceneComposer.createComposition` (effects.ts): filter the scene's
elements to those active at the frame
(`frame >= startFrame && frame <= endFrame && visible`), sort them ascending
by `layer`, and build a layer for each; active transitions come from
`calculateActiveTransitions`. -/
def createComposition (calcProps : PropsCalc) (proj : Option MotionProject) (now : ℤ)
    (scene : MotionScene) (frame : ℚ) : SceneComposition :=
  let activeElements := scene.elements.filter (fun element =>
    decide (element.startFrame ≤ frame) && decide (frame ≤ element.endFrame) &&
      element.visible)
  let sortedElements := sortByKey (·.layer) activeElements
  { scene := scene
    layers := sortedElements.map (fun element =>
      { element := element
        computedProperties := calcProps element frame
        visible := isElementVisible calcProps element frame
        blendMode := getElementBlendMode element
        mask := getElementMask element frame })
    activeTransitions := calculateActiveTransitions proj scene frame
    frame := frame
    timestamp := now }

/-- A trivial engine collaborator for closed statements: the element's own
property bag, unanimated. -/
def calcProps0 : PropsCalc := fun element _ => element.properties

/-- A visible but locked element spanning frames 0–10 on layer 0. -/
def elemC4 : MotionElement :=
  { id := "e0", startFrame := 0, endFrame := 10, layer := 0,
    visible := true, locked := true }

/-- A scene holding only the locked element `elemC4`. -/
def sceneC4 : MotionScene :=
  { id := "s0", startFrame := 0, endFrame := 10, duration := 10,
    elements := [elemC4] }

theorem createComposition_layers_map (calcProps : PropsCalc)
    (proj : Option MotionProject) (now : ℤ) (scene : MotionScene) (frame : ℚ) :
    (createComposition calcProps proj now scene frame).layers.map (fun l => l.element) =
      sortByKey (·.layer) (scene.elements.filter (fun element =>
        decide (element.startFrame ≤ frame) && decide (frame ≤ element.endFrame) &&
          element.visible)) := by
  simp only [createComposition, List.map_map]
  exact List.map_id _

/-- C4, counterexample: at frame 5 the scene `sceneC4` produces a layer for
its single element even though that element is locked; the claim's filter
(visible, not locked, in range) would give an empty layer list. -/
theorem createComposition_includes_locked_element :
    (createComposition calcProps0 none 0 sceneC4 5).layers.map (fun l => l.element.id)
      = ["e0"] ∧
    elemC4.locked = true ∧
    sceneC4.elements.filter (fun e =>
      e.visible && !e.locked && decide (e.startFrame ≤ (5 : ℚ)) &&
        decide ((5 : ℚ) ≤ e.endFrame)) = [] := by
  refine ⟨?_, rfl, by norm_num [sceneC4, elemC4]⟩
  have h := createComposition_layers_map calcProps0 none 0 sceneC4 5
  have h2 : (createComposition calcProps0 none 0 sceneC4 5).layers.map
      (fun l => l.element.id) =
      ((createComposition calcProps0 none 0 sceneC4 5).layers.map
        (fun l => l.element)).map (fun e => e.id) := by
    rw [List.map_map]
    rfl
  rw [h2, h]
  norm_num [sceneC4, elemC4, sortByKey, insertByKey]

/-- C4 (amended): for every scene and frame, the layer list of the resulting
composition contains exactly the scene's elements with `visible == true` and
`startFrame <= frame <= endFrame` — the `locked` flag is NOT part of the
filter (a locked element still gets a layer; lockedness only affects the
layer's own `visible` flag) — ordered ascending by their `layer` value. -/
theorem createComposition_layers_active_visible_sorted :
    ∀ (calcProps : PropsCalc) (proj : Option MotionProject) (now : ℤ)
      (scene : MotionScene) (frame : ℚ),
      ((createComposition calcProps proj now scene frame).layers.map
          (fun l => l.element)).Perm
        (scene.elements.filter (fun element =>
          decide (element.startFrame ≤ frame) && decide (frame ≤ element.endFrame) &&
            element.visible)) ∧
      ((createComposition calcProps proj now scene frame).layers.map
          (fun l => l.element)).Pairwise (fun a b => a.layer ≤ b.layer) := by
  intro calcProps proj now scene frame
  rw [createComposition_layers_map]
  exact ⟨sortByKey_perm _ _, sortByKey_sorted _ _⟩

/-- A layer handed to a transition resolver (effects.ts `TransitionSystem`):
the `opacity` field the fade resolver reads and multiplies, plus the rest of
the element's fields, preserved by the spread. -/
structure TransElem where
  opacity : ℚ
  rest : List (String × Value) := []

/-- The from/to pair a transition resolver returns. -/
structure TransPair where
  fromE : TransElem
  toE : TransElem

/-- The `fade` resolver of `TransitionSystem.initializeEffects` (effects.ts):
multiply the outgoing layer's opacity by `1 - progress` and the incoming
layer's opacity by `progress`, spreading the remaining fields through.  (The
resolver receives a `params` argument but does not read it.) -/
def fadeApply (progress : ℚ) (fromElement toElement : TransElem)
    (_params : List (String × Value)) : TransPair :=
  let fadeOut := 1 - progress
  let fadeIn := progress
  { fromE := { fromElement with opacity := fromElement.opacity * fadeOut }
    toE := { toElement with opacity := toElement.opacity * fadeIn } }

/-- `TransitionSystem.applyTransition` (effects.ts): look the resolver up by
the transition's `type`, ease the progress through `applyEasing`, merge the
resolver's default parameters with the transition's, and apply.  Only the
`fade` resolver is embedded here (the registry's other entries — slide, zoom,
wipe, morph, dissolve, push — are not touched by the verified claims); a type
without an embedded resolver falls back to the source's unknown-type branch,
returning the pair unchanged. -/
def applyTransition (re : EasingImpl) (transition : SceneTransition) (progress : ℚ)
    (fromElement toElement : TransElem) : TransPair :=
  if transition.type = "fade" then
    let easedProgress := applyEasing re progress transition.easing
    let params := transition.parameters.foldl (fun acc kv => setField acc kv.1 kv.2)
      [("crossFade", .boolean true)]
    fadeApply easedProgress fromElement toElement params
  else { fromE := fromElement, toE := toElement }

/-- The fade transition of end-to-end scenario B: duration 30, linear easing,
anchored (direction `in`) at its scene's start frame. -/
def tFadeC9 : SceneTransition :=
  { type := "fade", duration := 30, easing := .linear, direction := some .dirIn }

/-- A scene starting at frame 10 carrying the scenario-B fade transition. -/
def sceneC9 : MotionScene :=
  { id := "sB", startFrame := 10, endFrame := 60, duration := 50,
    transitions := [tFadeC9] }

/-- The active transition `calculateActiveTransitions` reports for `sceneC9`
at frame 25. -/
def activeC9 : ActiveTransition :=
  { transition := tFadeC9, progress := ((25 : ℚ) - 10) / 30, startFrame := 10,
    endFrame := 10 + 30 }

/-- C9: every active transition reports progress `(frame - startFrame) /
duration`; the scenario-B fade (duration 30, starting at frame 10, linear
easing) evaluated at frame 25 reports progress `1/2`, and applying the fade
at that progress multiplies the outgoing layer's opacity by `1/2` and the
incoming layer's opacity by `1/2`. -/
theorem transition_progress_and_fade_multipliers :
    (∀ (proj : Option MotionProject) (scene : MotionScene) (frame : ℚ)
        (t : ActiveTransition),
        t ∈ calculateActiveTransitions proj scene frame →
        t.progress = (frame - t.startFrame) / t.transition.duration) ∧
    ((calculateActiveTransitions none sceneC9 25).map (fun t => t.progress) =
      [1/2]) ∧
    (∀ (re : EasingImpl) (o1 o2 : ℚ) (r1 r2 : List (String × Value)),
        (applyTransition re tFadeC9 (1/2) ⟨o1, r1⟩ ⟨o2, r2⟩).fromE.opacity =
          o1 * (1/2) ∧
        (applyTransition re tFadeC9 (1/2) ⟨o1, r1⟩ ⟨o2, r2⟩).toE.opacity =
          o2 * (1/2)) := by
  refine ⟨?_, ?_, ?_⟩
  · intro proj scene frame t hmem
    rcases List.mem_filterMap.mp hmem with ⟨tr, htr, hf⟩
    simp only at hf
    split at hf
    · cases hf
      rfl
    · cases hf
  · norm_num [calculateActiveTransitions, getTransitionStartFrame, tFadeC9, sceneC9,
      getPreviousScene, getNextScene, List.filterMap_cons]
  · intro re o1 o2 r1 r2
    constructor
    · norm_num [applyTransition, fadeApply, applyEasing, tFadeC9]
    · norm_num [applyTransition, fadeApply, applyEasing, tFadeC9]

/-- Witness for C9: the concrete active fade of scenario B, obtained from
`calculateActiveTransitions` at frame 25, reports exactly
`(25 - startFrame) / duration`. -/
theorem transition_progress_and_fade_multipliers_witness :
    activeC9.progress = (25 - activeC9.startFrame) / activeC9.transition.duration := by
  have hmem : activeC9 ∈ calculateActiveTransitions none sceneC9 25 := by
    norm_num [calculateActiveTransitions, getTransitionStartFrame, tFadeC9, sceneC9,
      activeC9, getPreviousScene, getNextScene, List.filterMap_cons]
  exact transition_progress_and_fade_multipliers.1 none sceneC9 25 activeC9 hmem

/-- A JS property bag (`Record<string, any>` / plain-object `any`). -/
abbrev PropBag := List (String × Value)

/-- Generic first-occurrence association lookup (the `Map.get` of the effect
registry keyed by type strings). -/
def lookupAssoc {α : Type} : List (String × α) → String → Option α
  | [], _ => none
  | (k', v) :: rest, k => if k' = k then some v else lookupAssoc rest k

/-- Reading a possibly-absent JS property: the value when present, otherwise
`undefined`. -/
def paramV (params : PropBag) (k : String) : Value :=
  (lookupField k params).getD .undefined

/-- The fields contributed when a value spreads into an object literal: an
object's own fields, and nothing for `undefined` or another non-object. -/
def spreadFields : Option Value → PropBag
  | some (.obj fs) => fs
  | _ => []

/-- JS template-literal conversion of a runtime value to a string.  Number
formatting is platform float formatting, taken as the opaque `numToStr`. -/
def valToString (numToStr : ℚ → String) : Value → String
  | .num q => numToStr q
  | .str s => s
  | .boolean b => if b then "true" else "false"
  | .undefined => "undefined"
  | .obj _ => "[object Object]"

/-- A numeric JS value, when the value is a number (arithmetic on any other
value would leave the rational model, producing `NaN`-style results). -/
def asNum : Option Value → Option ℚ
  | some (.num q) => some q
  | _ => none

/-- JS `Math.round`: round half toward positive infinity. -/
def jsRound (q : ℚ) : ℤ := ⌊q + 1/2⌋

/-- A base-16 digit character. -/
def hexDigit (n : ℕ) : Char :=
  if n < 10 then Char.ofNat (48 + n) else Char.ofNat (97 + (n - 10))

/-- Base-16 digits of a positive natural, most significant first. -/
def natToHexAux : ℕ → List Char → List Char
  | 0, acc => acc
  | n + 1, acc => natToHexAux ((n + 1) / 16) (hexDigit ((n + 1) % 16) :: acc)
decreasing_by exact Nat.div_lt_self (Nat.succ_pos n) (by norm_num)

/-- JS `Number.prototype.toString(16)` for integers. -/
def intToHex (i : ℤ) : String :=
  if i = 0 then "0"
  else if i < 0 then "-" ++ String.mk (natToHexAux i.natAbs [])
  else String.mk (natToHexAux i.toNat [])

/-- JS `'...'.padStart(2, '0')`. -/
def padStart2Zero (s : String) : String :=
  if 2 ≤ s.length then s else if s.length = 1 then "0" ++ s else "00"

/-- The declared parameter types of `EffectParameter` (effects.ts). -/
inductive ParamType where
  | pnumber | pboolean | pcolor | pselect | prange
deriving DecidableEq, Repr

/-- An `EffectParameter` declaration (effects.ts). -/
structure EffectParameter where
  name : String
  type : ParamType
  defaultValue : Value
  min : Option ℚ := none
  max : Option ℚ := none
  step : Option ℚ := none
  options : Option (List String) := none
  description : String := ""

/-- An `EffectDefinition` (effects.ts): declared parameters plus the `apply`
transform.  `apply` takes the opaque float formatter first; it returns `none`
exactly where the source would do arithmetic on a non-numeric parameter
(leaving the rational model with `NaN`). -/
structure EffectDefinition where
  type : String
  name : String
  category : String
  parameters : List EffectParameter
  apply : (ℚ → String) → PropBag → PropBag → ℚ → Option PropBag

/-- The `blur` apply of `EffectLibrary.initializeEffects` (effects.ts). -/
def blurApply (numToStr : ℚ → String) (element params : PropBag) (_frame : ℚ) :
    Option PropBag :=
  let blurStr :=
    if jsTruthy (paramV params "directional") then
      "blur(" ++ valToString numToStr (paramV params "amount") ++
        "px) blur-direction(" ++ valToString numToStr (paramV params "angle") ++ "deg)"
    else "blur(" ++ valToString numToStr (paramV params "amount") ++ "px)"
  some (setField element "filter"
    (.obj (setField (spreadFields (lookupField "filter" element)) "blur" (.str blurStr))))

/-- The `glow` apply (effects.ts); `0.2` is written exactly as `1/5`. -/
def glowApply (numToStr : ℚ → String) (element params : PropBag) (_frame : ℚ) :
    Option PropBag := do
  let size ← asNum (lookupField "size" params)
  let softness ← asNum (lookupField "softness" params)
  let intensity ← asNum (lookupField "intensity" params)
  let boxShadow := "0 0 " ++ numToStr size ++ "px " ++ numToStr (size * softness) ++
    "px " ++ valToString numToStr (paramV params "color")
  some (setField (setField element "boxShadow" (.str boxShadow)) "filter"
    (.obj (setField (spreadFields (lookupField "filter" element)) "brightness"
      (.num (1 + intensity * (1/5))))))

/-- The `shadow` apply (effects.ts): a box-shadow string ending in the
rounded-opacity hex byte. -/
def shadowApply (numToStr : ℚ → String) (element params : PropBag) (_frame : ℚ) :
    Option PropBag := do
  let opacity ← asNum (lookupField "opacity" params)
  let hex := padStart2Zero (intToHex (jsRound (opacity * 255)))
  let boxShadow := valToString numToStr (paramV params "offsetX") ++ "px " ++
    valToString numToStr (paramV params "offsetY") ++ "px " ++
    valToString numToStr (paramV params "blur") ++ "px " ++
    valToString numToStr (paramV params "color") ++ hex
  some (setField element "boxShadow" (.str boxShadow))

/-- The `outline` apply (effects.ts). -/
def outlineApply (numToStr : ℚ → String) (element params : PropBag) (_frame : ℚ) :
    Option PropBag :=
  some (setField element "border" (.str
    (valToString numToStr (paramV params "width") ++ "px " ++
      valToString numToStr (paramV params "style") ++ " " ++
      valToString numToStr (paramV params "color"))))

/-- The `gradient` apply (effects.ts): a gradient string plus
`element.opacity * params.opacity`. -/
def gradientApply (numToStr : ℚ → String) (element params : PropBag) (_frame : ℚ) :
    Option PropBag := do
  let pOpacity ← asNum (lookupField "opacity" params)
  let eOpacity ← asNum (lookupField "opacity" element)
  let gradient :=
    if (match lookupField "type" params with | some (.str s) => s == "linear" | _ => false) then
      "linear-gradient(" ++ valToString numToStr (paramV params "angle") ++ "deg, " ++
        valToString numToStr (paramV params "color1") ++ ", " ++
        valToString numToStr (paramV params "color2") ++ ")"
    else
      "radial-gradient(circle, " ++ valToString numToStr (paramV params "color1") ++
        ", " ++ valToString numToStr (paramV params "color2") ++ ")"
  some (setField (setField element "background" (.str gradient)) "opacity"
    (.num (eOpacity * pOpacity)))

/-- The `noise` apply (effects.ts); `0.1` is written exactly as `1/10`. -/
def noiseApply (_numToStr : ℚ → String) (element params : PropBag) (frame : ℚ) :
    Option PropBag :=
  let seed : ℚ := if jsTruthy (paramV params "animated") then frame * (1/10) else 0
  some (setField element "filter"
    (.obj (setField (spreadFields (lookupField "filter" element)) "noise"
      (.obj [("amount", paramV params "amount"), ("scale", paramV params "scale"),
             ("seed", .num seed)]))))

/-- The `color-correction` apply (effects.ts): the brightness, contrast and
saturation parameters are copied into the filter verbatim; the hue becomes a
`deg` string. -/
def colorCorrectionApply (numToStr : ℚ → String) (element params : PropBag)
    (_frame : ℚ) : Option PropBag :=
  some (setField element "filter" (.obj
    (setField (setField (setField (setField
      (spreadFields (lookupField "filter" element))
      "brightness" (paramV params "brightness"))
      "contrast" (paramV params "contrast"))
      "saturate" (paramV params "saturation"))
      "hue-rotate" (.str (valToString numToStr (paramV params "hue") ++ "deg")))))

/-- The `chromatic-aberration` apply (effects.ts). -/
def chromaticAberrationApply (_numToStr : ℚ → String) (element params : PropBag)
    (_frame : ℚ) : Option PropBag :=
  some (setField element "filter"
    (.obj (setField (spreadFields (lookupField "filter" element)) "chromaticAberration"
      (.obj [("amount", paramV params "amount"), ("angle", paramV params "angle")]))))

/-- The effect registry built by `EffectLibrary.initializeEffects`
(effects.ts), with every declared parameter's type, default, min/max/step and
options transcribed.  (Decimal literals are exact rationals here; the source
holds them as floats.) -/
def effectDefs : List (String × EffectDefinition) :=
  [ ("blur",
     { type := "blur", name := "Blur", category := "blur",
       parameters :=
        [ { name := "amount", type := .prange, defaultValue := .num 5,
            min := some 0, max := some 50, step := some 0.1,
            description := "Blur intensity" },
          { name := "directional", type := .pboolean, defaultValue := .boolean false,
            description := "Enable directional blur" },
          { name := "angle", type := .prange, defaultValue := .num 0,
            min := some 0, max := some 360, step := some 1,
            description := "Blur direction angle" } ],
       apply := blurApply }),
    ("glow",
     { type := "glow", name := "Glow", category := "visual",
       parameters :=
        [ { name := "color", type := .pcolor, defaultValue := .str "#ffffff",
            description := "Glow color" },
          { name := "intensity", type := .prange, defaultValue := .num 1,
            min := some 0, max := some 5, step := some 0.1,
            description := "Glow intensity" },
          { name := "size", type := .prange, defaultValue := .num 10,
            min := some 0, max := some 100, step := some 1,
            description := "Glow size" },
          { name := "softness", type := .prange, defaultValue := .num 0.5,
            min := some 0, max := some 1, step := some 0.01,
            description := "Glow edge softness" } ],
       apply := glowApply }),
    ("shadow",
     { type := "shadow", name := "Drop Shadow", category := "visual",
       parameters :=
        [ { name := "offsetX", type := .prange, defaultValue := .num 5,
            min := some (-50), max := some 50, step := some 1,
            description := "Horizontal shadow offset" },
          { name := "offsetY", type := .prange, defaultValue := .num 5,
            min := some (-50), max := some 50, step := some 1,
            description := "Vertical shadow offset" },
          { name := "blur", type := .prange, defaultValue := .num 10,
            min := some 0, max := some 50, step := some 1,
            description := "Shadow blur amount" },
          { name := "color", type := .pcolor, defaultValue := .str "#000000",
            description := "Shadow color" },
          { name := "opacity", type := .prange, defaultValue := .num 0.5,
            min := some 0, max := some 1, step := some 0.01,
            description := "Shadow opacity" } ],
       apply := shadowApply }),
    ("outline",
     { type := "outline", name := "Outline", category := "visual",
       parameters :=
        [ { name := "width", type := .prange, defaultValue := .num 2,
            min := some 0, max := some 20, step := some 0.5,
            description := "Outline width" },
          { name := "color", type := .pcolor, defaultValue := .str "#ffffff",
            description := "Outline color" },
          { name := "style", type := .pselect, defaultValue := .str "solid",
            options := some ["solid", "dashed", "dotted"],
            description := "Outline style" } ],
       apply := outlineApply }),
    ("gradient",
     { type := "gradient", name := "Gradient Overlay", category := "color",
       parameters :=
        [ { name := "type", type := .pselect, defaultValue := .str "linear",
            options := some ["linear", "radial"],
            description := "Gradient type" },
          { name := "angle", type := .prange, defaultValue := .num 45,
            min := some 0, max := some 360, step := some 1,
            description := "Gradient angle (linear only)" },
          { name := "color1", type := .pcolor, defaultValue := .str "#ff0000",
            description := "Start color" },
          { name := "color2", type := .pcolor, defaultValue := .str "#0000ff",
            description := "End color" },
          { name := "opacity", type := .prange, defaultValue := .num 0.5,
            min := some 0, max := some 1, step := some 0.01,
            description := "Overlay opacity" } ],
       apply := gradientApply }),
    ("noise",
     { type := "noise", name := "Noise", category := "stylize",
       parameters :=
        [ { name := "amount", type := .prange, defaultValue := .num 0.1,
            min := some 0, max := some 1, step := some 0.01,
            description := "Noise intensity" },
          { name := "scale", type := .prange, defaultValue := .num 1,
            min := some 0.1, max := some 10, step := some 0.1,
            description := "Noise scale" },
          { name := "animated", type := .pboolean, defaultValue := .boolean false,
            description := "Animate noise over time" } ],
       apply := noiseApply }),
    ("color-correction",
     { type := "color-correction", name := "Color Correction", category := "color",
       parameters :=
        [ { name := "brightness", type := .prange, defaultValue := .num 1,
            min := some 0, max := some 2, step := some 0.01,
            description := "Brightness adjustment" },
          { name := "contrast", type := .prange, defaultValue := .num 1,
            min := some 0, max := some 2, step := some 0.01,
            description := "Contrast adjustment" },
          { name := "saturation", type := .prange, defaultValue := .num 1,
            min := some 0, max := some 2, step := some 0.01,
            description := "Saturation adjustment" },
          { name := "hue", type := .prange, defaultValue := .num 0,
            min := some (-180), max := some 180, step := some 1,
            description := "Hue shift in degrees" } ],
       apply := colorCorrectionApply }),
    ("chromatic-aberration",
     { type := "chromatic-aberration", name := "Chromatic Aberration",
       category := "distortion",
       parameters :=
        [ { name := "amount", type := .prange, defaultValue := .num 2,
            min := some 0, max := some 20, step := some 0.1,
            description := "Aberration intensity" },
          { name := "angle", type := .prange, defaultValue := .num 0,
            min := some 0, max := some 360, step := some 1,
            description := "Aberration direction" } ],
       apply := chromaticAberrationApply }) ]

/-- The per-parameter body of `EffectLibrary.validateEffect` (effects.ts):
missing (`undefined`/`null`) parameters, type mismatches, numeric values
outside declared min/max, and select values outside declared options each
push an error message. -/
def validateParam (numToStr : ℚ → String) (params : PropBag)
    (paramDef : EffectParameter) : List String :=
  match lookupField paramDef.name params with
  | none => ["Missing parameter: " ++ paramDef.name]
  | some .undefined => ["Missing parameter: " ++ paramDef.name]
  | some value =>
      (if paramDef.type = .pnumber ∨ paramDef.type = .prange then
        match value with
        | .num q =>
            (match paramDef.min with
             | some m =>
                if q < m then
                  ["Parameter " ++ paramDef.name ++ " is below minimum value " ++
                    numToStr m]
                else []
             | none => []) ++
            (match paramDef.max with
             | some M =>
                if M < q then
                  ["Parameter " ++ paramDef.name ++ " is above maximum value " ++
                    numToStr M]
                else []
             | none => [])
        | _ => ["Parameter " ++ paramDef.name ++ " must be a number"]
       else []) ++
      (if paramDef.type = .pboolean then
        match value with
        | .boolean _ => []
        | _ => ["Parameter " ++ paramDef.name ++ " must be a boolean"]
       else []) ++
      (if paramDef.type = .pselect then
        match paramDef.options with
        | some options =>
            if (match value with | .str s => options.contains s | _ => false) then []
            else
              ["Parameter " ++ paramDef.name ++ " must be one of: " ++
                String.intercalate ", " options]
        | none => []
       else [])

/-- The result record of `validateEffect`. -/
structure ValidationResult where
  valid : Bool
  errors : List String

/-- `EffectLibrary.validateEffect` (effects.ts): unknown types are invalid
outright; otherwise every declared parameter is checked in order and the
result is valid exactly when no error was collected. -/
def validateEffect (numToStr : ℚ → String) (effect : Effect) : ValidationResult :=
  match lookupAssoc effectDefs effect.type with
  | none => { valid := false, errors := ["Unknown effect type: " ++ effect.type] }
  | some definition =>
      let errors := definition.parameters.foldr
        (fun paramDef acc => validateParam numToStr effect.parameters paramDef ++ acc) []
      { valid := errors.isEmpty, errors := errors }

/-- `EffectLibrary.applyEffect` (effects.ts): unknown types and disabled
effects return the element unchanged, frames outside the effect's declared
window return it unchanged, and otherwise the definition's `apply` transform
runs on the raw `effect.parameters` — nothing is clamped on this path. -/
def applyEffect (numToStr : ℚ → String) (element : PropBag) (effect : Effect)
    (frame : ℚ) : Option PropBag :=
  match lookupAssoc effectDefs effect.type with
  | none => some element
  | some definition =>
      if !effect.enabled then some element
      else if (match effect.startFrame with
               | some s => decide (frame < s)
               | none => false) then some element
      else if (match effect.endFrame with
               | some e => decide (e < frame)
               | none => false) then some element
      else definition.apply numToStr element effect.parameters frame

/-- `EffectLibrary.applyEffects` (effects.ts): fold `applyEffect` over the
effect list in declaration order. -/
def applyEffects (numToStr : ℚ → String) (element : PropBag) (effects : List Effect)
    (frame : ℚ) : Option PropBag :=
  effects.foldl (fun acc effect => acc.bind
    (fun el => applyEffect numToStr el effect frame)) (some element)

theorem lookupField_setField_self (o : PropBag) (k : String) (v : Value) :
    lookupField k (setField o k v) = some v := by
  induction o with
  | nil => simp [setField, lookupField]
  | cons kv rest ih =>
      cases kv with
      | mk k' v' =>
          by_cases h : k' = k
          · subst h; simp [setField, lookupField]
          · simp [setField, lookupField, h, ih]

theorem lookupField_setField_ne (o : PropBag) (k k' : String) (v : Value)
    (h : k' ≠ k) : lookupField k (setField o k' v) = lookupField k o := by
  induction o with
  | nil => simp [setField, lookupField, h]
  | cons kv rest ih =>
      cases kv with
      | mk k0 v0 =>
          by_cases h0 : k0 = k'
          · subst h0
            simp [setField, lookupField, h]
          · by_cases hk : k0 = k
            · subst hk; simp [setField, lookupField, h0]
            · simp [setField, lookupField, h0, hk, ih]

theorem foldr_append_ne_nil {α : Type} (f : α → List String) (l : List α) (x : α)
    (hx : x ∈ l) (hf : f x ≠ []) :
    l.foldr (fun a acc => f a ++ acc) [] ≠ [] := by
  induction l with
  | nil => cases hx
  | cons y rest ih =>
      simp only [List.foldr_cons]
      intro happ
      rcases List.append_eq_nil.mp happ with ⟨h1, h2⟩
      rcases List.mem_cons.mp hx with h | h
      · subst h; exact hf h1
      · exact ih h h2

/-- A float formatter for closed statements. -/
def numToStr0 : ℚ → String := fun _ => ""

/-- A color-correction effect instance whose brightness parameter, 5, lies
above the declared maximum 2. -/
def ccEffectC7 : Effect :=
  { type := "color-correction", enabled := true,
    parameters := [("brightness", .num 5), ("contrast", .num 1),
                   ("saturation", .num 1), ("hue", .num 0)] }

/-- C7, counterexample: applying a color-correction effect whose brightness
parameter is 5 — above its declared range `[0, 2]` — writes the raw value 5
into the composed filter; composition-time application does not clamp. -/
theorem applyEffect_uses_raw_out_of_range_value :
    applyEffect numToStr0 [] ccEffectC7 0 =
      some [("filter", .obj [("brightness", .num 5), ("contrast", .num 1),
        ("saturate", .num 1), ("hue-rotate", .str "deg")])] ∧
    (lookupAssoc effectDefs "color-correction").map
      (fun d => d.parameters.map (fun pd => (pd.name, pd.min, pd.max))) =
      some [("brightness", some 0, some 2), ("contrast", some 0, some 2),
            ("saturation", some 0, some 2), ("hue", some (-180), some 180)] ∧
    ¬ ((5 : ℚ) ≤ 2) := by
  exact ⟨rfl, rfl, by norm_num⟩

/-- C7 (amended): effect parameter handling is dual-mode in validation only —
`validateEffect` rejects a numeric parameter below its declared min or above
its declared max, and a select parameter outside its declared options; but at
composition time `applyEffect` performs no clamping at all: the raw parameter
value is used unchanged (shown for color-correction, whose brightness is
copied verbatim into the composed filter). -/
theorem validateEffect_strict_applyEffect_raw :
    (∀ (numToStr : ℚ → String) (effect : Effect) (d : EffectDefinition)
        (pd : EffectParameter) (q : ℚ),
        lookupAssoc effectDefs effect.type = some d →
        pd ∈ d.parameters →
        (pd.type = .pnumber ∨ pd.type = .prange) →
        lookupField pd.name effect.parameters = some (.num q) →
        ((∃ m, pd.min = some m ∧ q < m) ∨ (∃ M, pd.max = some M ∧ M < q)) →
        (validateEffect numToStr effect).valid = false) ∧
    (∀ (numToStr : ℚ → String) (effect : Effect) (d : EffectDefinition)
        (pd : EffectParameter) (s : String) (opts : List String),
        lookupAssoc effectDefs effect.type = some d →
        pd ∈ d.parameters →
        pd.type = .pselect →
        pd.options = some opts →
        lookupField pd.name effect.parameters = some (.str s) →
        opts.contains s = false →
        (validateEffect numToStr effect).valid = false) ∧
    (∀ (numToStr : ℚ → String) (element params : PropBag) (frame : ℚ) (v : Value),
        lookupField "brightness" params = some v →
        ∃ bag fs,
          applyEffect numToStr element
            { type := "color-correction", enabled := true, parameters := params }
            frame = some bag ∧
          lookupField "filter" bag = some (.obj fs) ∧
          lookupField "brightness" fs = some v) := by
  refine ⟨?_, ?_, ?_⟩
  · intro numToStr effect d pd q hdef hpd htype hlook hrange
    have hvp : validateParam numToStr effect.parameters pd ≠ [] := by
      simp only [validateParam, hlook]
      rw [if_pos htype]
      rcases hrange with ⟨m, hm, hlt⟩ | ⟨M, hM, hlt⟩
      · simp [hm, hlt, List.append_eq_nil]
      · simp [hM, hlt, List.append_eq_nil]
    unfold validateEffect
    rw [hdef]
    have herr : (d.parameters.foldr
        (fun paramDef acc => validateParam numToStr effect.parameters paramDef ++ acc)
        []) ≠ [] :=
      foldr_append_ne_nil _ _ pd hpd hvp
    cases he : d.parameters.foldr
        (fun paramDef acc => validateParam numToStr effect.parameters paramDef ++ acc)
        [] with
    | nil => exact absurd he herr
    | cons a t => simp [he]
  · intro numToStr effect d pd s opts hdef hpd htype hopts hlook hc
    have hnm : s ∉ opts := by
      intro hmem
      have helem := List.elem_eq_true_of_mem hmem
      rw [show opts.contains s = opts.elem s from rfl, helem] at hc
      cases hc
    have hvp : validateParam numToStr effect.parameters pd ≠ [] := by
      simp only [validateParam, hlook, htype, hopts]
      simp [hnm, List.append_eq_nil]
    unfold validateEffect
    rw [hdef]
    have herr : (d.parameters.foldr
        (fun paramDef acc => validateParam numToStr effect.parameters paramDef ++ acc)
        []) ≠ [] :=
      foldr_append_ne_nil _ _ pd hpd hvp
    cases he : d.parameters.foldr
        (fun paramDef acc => validateParam numToStr effect.parameters paramDef ++ acc)
        [] with
    | nil => exact absurd he herr
    | cons a t => simp [he]
  · intro numToStr element params frame v hv
    have hpv : paramV params "brightness" = v := by simp [paramV, hv]
    refine ⟨_, _, rfl, lookupField_setField_self _ _ _, ?_⟩
    rw [lookupField_setField_ne _ _ _ _ (by decide),
      lookupField_setField_ne _ _ _ _ (by decide),
      lookupField_setField_ne _ _ _ _ (by decide),
      lookupField_setField_self, hpv]

/-- A blur effect instance whose amount, 100, is above the declared max 50. -/
def blurBadC7 : Effect :=
  { type := "blur",
    parameters := [("amount", .num 100), ("directional", .boolean false),
                   ("angle", .num 0)] }

/-- An outline effect instance whose style is outside the declared options. -/
def outlineBadC7 : Effect :=
  { type := "outline",
    parameters := [("width", .num 2), ("color", .str "#ffffff"),
                   ("style", .str "wavy")] }

/-- Witness for the amended C7 theorem: an over-max blur amount and an
off-options outline style are each rejected by validation, while applying an
out-of-range color-correction passes the raw brightness through. -/
theorem validateEffect_strict_applyEffect_raw_witness :
    (validateEffect numToStr0 blurBadC7).valid = false ∧
    (validateEffect numToStr0 outlineBadC7).valid = false ∧
    (∃ bag fs,
      applyEffect numToStr0 []
        { type := "color-correction", enabled := true,
          parameters := [("brightness", .num 5)] } 0 = some bag ∧
      lookupField "filter" bag = some (.obj fs) ∧
      lookupField "brightness" fs = some (.num 5)) := by
  refine ⟨?_, ?_, ?_⟩
  · exact validateEffect_strict_applyEffect_raw.1 numToStr0 blurBadC7 _
      { name := "amount", type := .prange, defaultValue := .num 5,
        min := some 0, max := some 50, step := some 0.1,
        description := "Blur intensity" } 100 rfl (List.mem_cons_self _ _)
      (Or.inr rfl) rfl (Or.inr ⟨50, rfl, by norm_num⟩)
  · exact validateEffect_strict_applyEffect_raw.2.1 numToStr0 outlineBadC7 _
      { name := "style", type := .pselect, defaultValue := .str "solid",
        options := some ["solid", "dashed", "dotted"],
        description := "Outline style" } "wavy" ["solid", "dashed", "dotted"] rfl
      (List.mem_cons.mpr (Or.inr (List.mem_cons.mpr (Or.inr
        (List.mem_cons_self _ _))))) rfl rfl rfl rfl
  · exact validateEffect_strict_applyEffect_raw.2.2 numToStr0 []
      [("brightness", .num 5)] 0 (.num 5) rfl

/-!
Heap-passing embedding of `MotionEngine.calculateElementPropertiesAtFrame`
(core.ts).  The method spreads `element.properties` into a fresh object — a
SHALLOW copy, the nested objects stay shared — and then writes animated values
through `setNestedProperty`, which walks dotted paths through those shared
objects; the per-animation `keyframes.sort(...)` also reorders each keyframe
array in place.  To settle the purity claim, JS objects live in an explicit
heap of address-indexed field lists here, and the embedded function returns
the updated heap and the element's post-call animation state.
-/

/-- A JS runtime value in the heap model: primitives plus object
references. -/
inductive JSVal where
  | num : ℚ → JSVal
  | str : String → JSVal
  | boolean : Bool → JSVal
  | undefined : JSVal
  | ref : ℕ → JSVal
deriving DecidableEq, Repr

/-- An object's own fields, insertion-ordered. -/
abbrev JSObj := List (String × JSVal)

/-- A heap of allocated objects: an address-indexed store plus the next fresh
address. -/
structure Heap where
  objs : List (ℕ × JSObj)
  next : ℕ
deriving DecidableEq, Repr

/-- First-occurrence address lookup in a store. -/
def lookupAddr : List (ℕ × JSObj) → ℕ → Option JSObj
  | [], _ => none
  | (a', o) :: rest, a => if a' = a then some o else lookupAddr rest a

/-- Address lookup. -/
def heapGet (h : Heap) (a : ℕ) : Option JSObj := lookupAddr h.objs a

/-- In-place update of the object at an address. -/
def heapSet (h : Heap) (a : ℕ) (o : JSObj) : Heap :=
  { h with objs := h.objs.map (fun p => if p.1 = a then (a, o) else p) }

/-- Allocation of a fresh object (an empty or literal object): the new
address and the grown heap. -/
def heapAlloc (h : Heap) (o : JSObj) : Heap × ℕ :=
  ({ objs := (h.next, o) :: h.objs, next := h.next + 1 }, h.next)

/-- Field read `o[k]` on heap objects. -/
def objGetJ (k : String) : JSObj → Option JSVal
  | [] => none
  | (k', v) :: rest => if k' = k then some v else objGetJ k rest

/-- Field write `o[k] = v` on heap objects: overwrite in place or append. -/
def objSetJ : JSObj → String → JSVal → JSObj
  | [], k, v => [(k, v)]
  | (k', v') :: rest, k, v =>
      if k' = k then (k, v) :: rest else (k', v') :: objSetJ rest k v

/-- One iteration of the walk in `setNestedProperty` (core.ts): when the key
is missing, create an empty object there; then step into the key's value.
A primitive in the path yields `none` (the subsequent strict-mode property
access would throw). -/
def setNestedStep (h : Heap) (a : ℕ) (k : String) : Option (Heap × ℕ) :=
  match heapGet h a with
  | none => none
  | some o =>
      match objGetJ k o with
      | some (.ref a') => some (h, a')
      | some _ => none
      | none =>
          let alloc := heapAlloc h []
          some (heapSet alloc.1 a (objSetJ o k (.ref alloc.2)), alloc.2)

/-- `MotionEngine.setNestedProperty` (core.ts) over the heap: walk the dotted
path, creating missing intermediate objects, and assign at the final key. -/
def setNestedProperty (h : Heap) (a : ℕ) (keys : List String) (v : JSVal) :
    Option Heap :=
  match keys with
  | [] => some h
  | [k] =>
      match heapGet h a with
      | none => none
      | some o => some (heapSet h a (objSetJ o k v))
  | k :: rest =>
      match setNestedStep h a k with
      | none => none
      | some (h', a') => setNestedProperty h' a' rest v

/-- A keyframe in the heap model (its value may be an object reference). -/
structure KeyframeH where
  frame : ℚ
  value : JSVal
  easing : Option EasingType := none
deriving DecidableEq, Repr

/-- An `Animation` in the heap model. -/
structure AnimationH where
  id : String := ""
  property : String
  keyframes : List KeyframeH
  easing : EasingType
  duration : ℚ := 0
  delay : ℚ := 0
  loop : Bool := false
  yoyo : Bool := false
deriving DecidableEq, Repr

/-- The loop-folding block of `calculateAnimationValue`, heap-model variant
(same arithmetic as `foldFrame`). -/
def foldFrameH (a : AnimationH) (adjustedFrame : ℚ) : ℚ :=
  if a.loop && decide (0 < a.duration) then
    let folded := jsRem adjustedFrame a.duration
    if a.yoyo && decide (⌊adjustedFrame / a.duration⌋ % 2 = 1) then
      a.duration - folded
    else folded
  else adjustedFrame

mutual

/-- `MotionEngine.interpolateValue` over the heap: numbers interpolate
directly; two object references interpolate field-by-field, allocating a
fresh result object; any other pairing is the binary switch at `0.5`.  The
`fuel` bounds the recursion depth (JS heaps may be cyclic); `none` means the
fuel ran out or a reference was dangling. -/
def interpolateValueH : ℕ → Heap → JSVal → JSVal → ℚ → Option (JSVal × Heap)
  | 0, _, _, _, _ => none
  | _ + 1, h, .num a, .num b, p => some (.num (a + p * (b - a)), h)
  | fuel + 1, h, .ref fa, .ref tb, p =>
      match heapGet h fa, heapGet h tb with
      | some fo, some tobj =>
          match interpolateFieldsH fuel h fo tobj p with
          | some (fields, h') =>
              let alloc := heapAlloc h' fields
              some (.ref alloc.2, alloc.1)
          | none => none
      | _, _ => none
  | _ + 1, h, f, t, p => some (if p < (1 : ℚ)/2 then f else t, h)
termination_by fuel _ _ _ _ => (fuel, 0)

/-- The `for (const key in from)` loop of `interpolateValue`, heap variant. -/
def interpolateFieldsH : ℕ → Heap → JSObj → JSObj → ℚ → Option (JSObj × Heap)
  | _, h, [], _, _ => some ([], h)
  | fuel, h, (k, v) :: rest, tb, p =>
      match objGetJ k tb with
      | some tv =>
          match interpolateValueH fuel h v tv p with
          | some (rv, h') =>
              match interpolateFieldsH fuel h' rest tb p with
              | some (fs, h'') => some ((k, rv) :: fs, h'')
              | none => none
          | none => none
      | none =>
          match interpolateFieldsH fuel h rest tb p with
          | some (fs, h') => some ((k, v) :: fs, h')
          | none => none
termination_by fuel _ l _ _ => (fuel, l.length + 1)

end

/-- The bracketing loop of `calculateAnimationValue`, heap variant. -/
def findSegmentValueH (re : EasingImpl) (animEasing : EasingType) (fuel : ℕ)
    (h : Heap) (currentFrame : ℚ) : List KeyframeH → Option (Option JSVal × Heap)
  | k1 :: k2 :: rest =>
      if k1.frame ≤ currentFrame ∧ currentFrame ≤ k2.frame then
        let progress := (currentFrame - k1.frame) / (k2.frame - k1.frame)
        let easedProgress := applyEasing re progress (k2.easing.getD animEasing)
        match interpolateValueH fuel h k1.value k2.value easedProgress with
        | some (v, h') => some (some v, h')
        | none => none
      else findSegmentValueH re animEasing fuel h currentFrame (k2 :: rest)
  | _ => some (none, h)

/-- The clamp-or-interpolate tail of `calculateAnimationValue`, heap
variant. -/
def clampOrInterpH (re : EasingImpl) (animEasing : EasingType) (fuel : ℕ)
    (h : Heap) (currentFrame : ℚ) : List KeyframeH → Option (Option JSVal × Heap)
  | [] => some (none, h)
  | k0 :: rest =>
      if currentFrame ≤ k0.frame then some (some k0.value, h)
      else if ((k0 :: rest).getLast (by simp)).frame ≤ currentFrame then
        some (some (((k0 :: rest).getLast (by simp)).value), h)
      else findSegmentValueH re animEasing fuel h currentFrame (k0 :: rest)

/-- `MotionEngine.calculateAnimationValue` over the heap.  Besides the value
and the heap, the result carries the keyframe array's post-call contents: the
source's `animation.keyframes.sort(...)` sorts in place, but only after the
empty-list and negative-adjusted-frame guards have passed. -/
def calculateAnimationValueH (re : EasingImpl) (fuel : ℕ) (h : Heap)
    (a : AnimationH) (frame : ℚ) : Option (Option JSVal × Heap × List KeyframeH) :=
  if a.keyframes.length = 0 then some (none, h, a.keyframes)
  else if frame - a.delay < 0 then some (none, h, a.keyframes)
  else
    let sorted := sortByKey (·.frame) a.keyframes
    match clampOrInterpH re a.easing fuel h (foldFrameH a (frame - a.delay)) sorted with
    | some (v, h') => some (v, h', sorted)
    | none => none

/-- The element state `calculateElementPropertiesAtFrame` reads and mutates:
the address of its property bag and its animations. -/
structure ElementH where
  id : String := ""
  propAddr : ℕ
  animations : List AnimationH
deriving DecidableEq, Repr

/-- The `element.animations.forEach(...)` loop of
`calculateElementPropertiesAtFrame` (core.ts): evaluate each animation and,
when the value is defined, write it through `setNestedProperty` into the
copied bag at `copyAddr`; each animation's keyframe array emerges with its
post-sort contents. -/
def applyAnimationsH (re : EasingImpl) (fuel : ℕ) (frame : ℚ) (copyAddr : ℕ) :
    Heap → List AnimationH → Option (Heap × List AnimationH)
  | h, [] => some (h, [])
  | h, a :: rest =>
      match calculateAnimationValueH re fuel h a frame with
      | none => none
      | some (vOpt, h', kfs) =>
          match vOpt with
          | none =>
              match applyAnimationsH re fuel frame copyAddr h' rest with
              | some (h'', rest') => some (h'', { a with keyframes := kfs } :: rest')
              | none => none
          | some v =>
              match setNestedProperty h' copyAddr (splitPath a.property) v with
              | none => none
              | some h2 =>
                  match applyAnimationsH re fuel frame copyAddr h2 rest with
                  | some (h'', rest') => some (h'', { a with keyframes := kfs } :: rest')
                  | none => none

/-- `MotionEngine.calculateElementPropertiesAtFrame` (core.ts) over the heap:
spread the element's property bag into a fresh object (shallow copy), run
every animation through `setNestedProperty`, and return the new bag's address,
the final heap, and the element's post-call state. -/
def calculateElementPropertiesAtFrameH (re : EasingImpl) (fuel : ℕ) (h : Heap)
    (element : ElementH) (frame : ℚ) : Option (ℕ × Heap × ElementH) :=
  match heapGet h element.propAddr with
  | none => none
  | some bag =>
      let alloc := heapAlloc h bag
      match applyAnimationsH re fuel frame alloc.2 alloc.1 element.animations with
      | none => none
      | some (h', anims') => some (alloc.2, h', { element with animations := anims' })

/-- Heap extension: the next-address counter has not shrunk and every
previously allocated address still holds the same object. -/
def HeapExt (h h' : Heap) : Prop :=
  h.next ≤ h'.next ∧ ∀ a, a < h.next → heapGet h' a = heapGet h a

theorem heapExt_refl (h : Heap) : HeapExt h h := ⟨le_refl _, fun _ _ => rfl⟩

theorem heapExt_trans {h1 h2 h3 : Heap} (h12 : HeapExt h1 h2) (h23 : HeapExt h2 h3) :
    HeapExt h1 h3 := by
  refine ⟨le_trans h12.1 h23.1, fun a ha => ?_⟩
  rw [h23.2 a (lt_of_lt_of_le ha h12.1), h12.2 a ha]

theorem heapGet_heapAlloc_ne (h : Heap) (o : JSObj) (a : ℕ) (ha : a ≠ h.next) :
    heapGet (heapAlloc h o).1 a = heapGet h a := by
  have hne : h.next ≠ a := fun hh => ha hh.symm
  simp [heapAlloc, heapGet, lookupAddr, hne]

theorem heapExt_heapAlloc (h : Heap) (o : JSObj) : HeapExt h (heapAlloc h o).1 := by
  refine ⟨by simp [heapAlloc], fun a ha => heapGet_heapAlloc_ne h o a (Nat.ne_of_lt ha)⟩

theorem heapGet_heapSet_ne (h : Heap) (b : ℕ) (o : JSObj) (a : ℕ) (ha : a ≠ b) :
    heapGet (heapSet h b o) a = heapGet h a := by
  show lookupAddr (h.objs.map _) a = lookupAddr h.objs a
  induction h.objs with
  | nil => rfl
  | cons p rest ih =>
      cases p with
      | mk a' o' =>
          rw [List.map_cons]
          by_cases hb : a' = b
          · subst hb
            have h1 : (if ((a', o') : ℕ × JSObj).1 = a' then (a', o) else (a', o')) =
                (a', o) := if_pos rfl
            rw [h1]
            simp only [lookupAddr]
            rw [if_neg (fun hh : a' = a => ha hh.symm), ih,
              if_neg (fun hh : a' = a => ha hh.symm)]
          · have h1 : (if ((a', o') : ℕ × JSObj).1 = b then (b, o) else (a', o')) =
                (a', o') := if_neg hb
            rw [h1]
            simp only [lookupAddr]
            by_cases ha' : a' = a
            · rw [if_pos ha', if_pos ha']
            · rw [if_neg ha', ih, if_neg ha']

theorem heapSet_next (h : Heap) (b : ℕ) (o : JSObj) : (heapSet h b o).next = h.next :=
  rfl

theorem interpolateFieldsH_ext_of (fuel : ℕ)
    (hval : ∀ (h : Heap) (f t : JSVal) (p : ℚ) (r : JSVal × Heap),
      interpolateValueH fuel h f t p = some r → HeapExt h r.2) :
    ∀ (l : JSObj) (h : Heap) (tb : JSObj) (p : ℚ) (r : JSObj × Heap),
      interpolateFieldsH fuel h l tb p = some r → HeapExt h r.2 := by
  intro l
  induction l with
  | nil =>
      intro h tb p r hr
      simp only [interpolateFieldsH] at hr
      cases hr
      exact heapExt_refl h
  | cons kv rest ih =>
      intro h tb p r hr
      cases kv with
      | mk k v =>
          simp only [interpolateFieldsH] at hr
          cases htv : objGetJ k tb with
          | some tv =>
              rw [htv] at hr
              dsimp only at hr
              cases hiv : interpolateValueH fuel h v tv p with
              | none => rw [hiv] at hr; cases hr
              | some rvh =>
                  rw [hiv] at hr
                  dsimp only at hr
                  cases rvh with
                  | mk rv h1 =>
                      cases hif : interpolateFieldsH fuel h1 rest tb p with
                      | none => rw [hif] at hr; cases hr
                      | some fsh =>
                          rw [hif] at hr
                          dsimp only at hr
                          cases fsh with
                          | mk fs h2 =>
                              cases hr
                              exact heapExt_trans (hval h v tv p (rv, h1) hiv)
                                (ih h1 tb p (fs, h2) hif)
          | none =>
              rw [htv] at hr
              dsimp only at hr
              cases hif : interpolateFieldsH fuel h rest tb p with
              | none => rw [hif] at hr; cases hr
              | some fsh =>
                  rw [hif] at hr
                  dsimp only at hr
                  cases fsh with
                  | mk fs h1 =>
                      cases hr
                      exact ih h tb p (fs, h1) hif

theorem interpolateValueH_ext :
    ∀ (fuel : ℕ) (h : Heap) (f t : JSVal) (p : ℚ) (r : JSVal × Heap),
      interpolateValueH fuel h f t p = some r → HeapExt h r.2 := by
  intro fuel
  induction fuel with
  | zero =>
      intro h f t p r hr
      simp only [interpolateValueH] at hr
      cases hr
  | succ n ih =>
      intro h f t p r hr
      cases f with
      | ref fa =>
          cases t with
          | ref tb =>
              simp only [interpolateValueH] at hr
              cases hfo : heapGet h fa with
              | none => rw [hfo] at hr; cases hr
              | some fo =>
                  cases hto : heapGet h tb with
                  | none => rw [hfo, hto] at hr; cases hr
                  | some tobj =>
                      rw [hfo, hto] at hr
                      dsimp only at hr
                      cases hif : interpolateFieldsH n h fo tobj p with
                      | none => rw [hif] at hr; cases hr
                      | some fsh =>
                          rw [hif] at hr
                          dsimp only at hr
                          cases fsh with
                          | mk fields h1 =>
                              cases hr
                              exact heapExt_trans
                                (interpolateFieldsH_ext_of n ih fo h tobj p
                                  (fields, h1) hif)
                                (heapExt_heapAlloc h1 fields)
          | num b => simp only [interpolateValueH] at hr; cases hr; exact heapExt_refl h
          | str s => simp only [interpolateValueH] at hr; cases hr; exact heapExt_refl h
          | boolean b =>
              simp only [interpolateValueH] at hr; cases hr; exact heapExt_refl h
          | undefined => simp only [interpolateValueH] at hr; cases hr; exact heapExt_refl h
      | num a =>
          cases t <;> simp only [interpolateValueH] at hr <;> cases hr <;>
            exact heapExt_refl h
      | str s =>
          cases t <;> simp only [interpolateValueH] at hr <;> cases hr <;>
            exact heapExt_refl h
      | boolean b =>
          cases t <;> simp only [interpolateValueH] at hr <;> cases hr <;>
            exact heapExt_refl h
      | undefined =>
          cases t <;> simp only [interpolateValueH] at hr <;> cases hr <;>
            exact heapExt_refl h

theorem interpolateFieldsH_ext (fuel : ℕ) (l : JSObj) (h : Heap) (tb : JSObj)
    (p : ℚ) (r : JSObj × Heap) (hr : interpolateFieldsH fuel h l tb p = some r) :
    HeapExt h r.2 :=
  interpolateFieldsH_ext_of fuel (interpolateValueH_ext fuel) l h tb p r hr

theorem findSegmentValueH_ext (re : EasingImpl) (animEasing : EasingType)
    (fuel : ℕ) (currentFrame : ℚ) :
    ∀ (l : List KeyframeH) (h : Heap) (r : Option JSVal × Heap),
      findSegmentValueH re animEasing fuel h currentFrame l = some r →
      HeapExt h r.2 := by
  intro l
  induction l with
  | nil =>
      intro h r hr
      simp only [findSegmentValueH] at hr
      cases hr
      exact heapExt_refl h
  | cons k1 rest ih =>
      intro h r hr
      cases rest with
      | nil =>
          simp only [findSegmentValueH] at hr
          cases hr
          exact heapExt_refl h
      | cons k2 rest2 =>
          simp only [findSegmentValueH] at hr
          split at hr
          · cases hiv : interpolateValueH fuel h k1.value k2.value
                (applyEasing re ((currentFrame - k1.frame) / (k2.frame - k1.frame))
                  (k2.easing.getD animEasing)) with
            | none => rw [hiv] at hr; cases hr
            | some vh =>
                rw [hiv] at hr
                dsimp only at hr
                cases vh with
                | mk v h1 =>
                    cases hr
                    exact interpolateValueH_ext fuel h _ _ _ (v, h1) hiv
          · exact ih h r hr

theorem clampOrInterpH_ext (re : EasingImpl) (animEasing : EasingType)
    (fuel : ℕ) (currentFrame : ℚ) (l : List KeyframeH) (h : Heap)
    (r : Option JSVal × Heap)
    (hr : clampOrInterpH re animEasing fuel h currentFrame l = some r) :
    HeapExt h r.2 := by
  cases l with
  | nil =>
      simp only [clampOrInterpH] at hr
      cases hr
      exact heapExt_refl h
  | cons k0 rest =>
      simp only [clampOrInterpH] at hr
      split at hr
      · cases hr; exact heapExt_refl h
      · split at hr
        · cases hr; exact heapExt_refl h
        · exact findSegmentValueH_ext re animEasing fuel currentFrame (k0 :: rest) h r hr

theorem calculateAnimationValueH_ext (re : EasingImpl) (fuel : ℕ) (h : Heap)
    (a : AnimationH) (frame : ℚ) (r : Option JSVal × Heap × List KeyframeH)
    (hr : calculateAnimationValueH re fuel h a frame = some r) :
    HeapExt h r.2.1 ∧
      (r.2.2 = a.keyframes ∨ r.2.2 = sortByKey (·.frame) a.keyframes) := by
  simp only [calculateAnimationValueH] at hr
  split at hr
  · cases hr
    exact ⟨heapExt_refl h, Or.inl rfl⟩
  · split at hr
    · cases hr
      exact ⟨heapExt_refl h, Or.inl rfl⟩
    · cases hc : clampOrInterpH re a.easing fuel h (foldFrameH a (frame - a.delay))
          (sortByKey (·.frame) a.keyframes) with
      | none => rw [hc] at hr; cases hr
      | some vh =>
          rw [hc] at hr
          dsimp only at hr
          cases vh with
          | mk v h1 =>
              cases hr
              exact ⟨clampOrInterpH_ext re a.easing fuel _ _ h (v, h1) hc, Or.inr rfl⟩

theorem setNestedProperty_single (h : Heap) (ca : ℕ) (k : String) (v : JSVal)
    (h' : Heap) (hr : setNestedProperty h ca [k] v = some h') :
    h'.next = h.next ∧ ∀ a, a ≠ ca → heapGet h' a = heapGet h a := by
  simp only [setNestedProperty] at hr
  cases ho : heapGet h ca with
  | none => rw [ho] at hr; cases hr
  | some o =>
      rw [ho] at hr
      dsimp only at hr
      cases hr
      exact ⟨rfl, fun a ha => heapGet_heapSet_ne h ca _ a ha⟩

theorem applyAnimationsH_flat (re : EasingImpl) (fuel : ℕ) (frame : ℚ) (ca : ℕ) :
    ∀ (anims : List AnimationH) (h h' : Heap) (anims' : List AnimationH),
      (∀ an ∈ anims, (splitPath an.property).length = 1) →
      (∀ an ∈ anims, an.keyframes.Pairwise (fun x y => x.frame ≤ y.frame)) →
      applyAnimationsH re fuel frame ca h anims = some (h', anims') →
      h.next ≤ h'.next ∧ anims' = anims ∧
        ∀ a, a < h.next → a ≠ ca → heapGet h' a = heapGet h a := by
  intro anims
  induction anims with
  | nil =>
      intro h h' anims' _ _ hr
      simp only [applyAnimationsH] at hr
      cases hr
      exact ⟨le_refl _, rfl, fun _ _ _ => rfl⟩
  | cons an rest ih =>
      intro h h' anims' hflat hsorted hr
      simp only [applyAnimationsH] at hr
      cases hav : calculateAnimationValueH re fuel h an frame with
      | none => rw [hav] at hr; cases hr
      | some vhk =>
          rw [hav] at hr
          dsimp only at hr
          obtain ⟨vOpt, h1, kfs⟩ := vhk
          dsimp only at hr
          have hext1 := calculateAnimationValueH_ext re fuel h an frame
            (vOpt, h1, kfs) hav
          dsimp only at hext1
          have hkfs : kfs = an.keyframes := by
            rcases hext1.2 with hk | hk
            · exact hk
            · rw [hk, sortByKey_of_sorted (·.frame) an.keyframes
                (hsorted an (List.mem_cons_self _ _))]
          have han : ({ an with keyframes := kfs } : AnimationH) = an := by
            rw [hkfs]
          cases vOpt with
          | none =>
              dsimp only at hr
              cases hrec : applyAnimationsH re fuel frame ca h1 rest with
              | none => rw [hrec] at hr; cases hr
              | some hr2 =>
                  rw [hrec] at hr
                  dsimp only at hr
                  obtain ⟨h2, rest'⟩ := hr2
                  cases hr
                  obtain ⟨hle, hrest, hget⟩ := ih h1 h2 rest'
                    (fun x hx => hflat x (List.mem_cons_of_mem _ hx))
                    (fun x hx => hsorted x (List.mem_cons_of_mem _ hx)) hrec
                  refine ⟨le_trans hext1.1.1 hle, by rw [han, hrest], ?_⟩
                  intro a ha hca
                  rw [hget a (lt_of_lt_of_le ha hext1.1.1) hca, hext1.1.2 a ha]
          | some v =>
              dsimp only at hr
              cases hset : setNestedProperty h1 ca (splitPath an.property) v with
              | none => rw [hset] at hr; cases hr
              | some h2 =>
                  rw [hset] at hr
                  dsimp only at hr
                  obtain ⟨k, hk⟩ := List.length_eq_one.mp
                    (hflat an (List.mem_cons_self _ _))
                  rw [hk] at hset
                  have hsingle := setNestedProperty_single h1 ca k v h2 hset
                  cases hrec : applyAnimationsH re fuel frame ca h2 rest with
                  | none => rw [hrec] at hr; cases hr
                  | some hr3 =>
                      rw [hrec] at hr
                      dsimp only at hr
                      obtain ⟨h3, rest'⟩ := hr3
                      cases hr
                      obtain ⟨hle, hrest, hget⟩ := ih h2 h3 rest'
                        (fun x hx => hflat x (List.mem_cons_of_mem _ hx))
                        (fun x hx => hsorted x (List.mem_cons_of_mem _ hx)) hrec
                      refine ⟨?_, by rw [han, hrest], ?_⟩
                      · calc h.next ≤ h1.next := hext1.1.1
                          _ = h2.next := (hsingle.1).symm
                          _ ≤ h3.next := hle
                      · intro a ha hca
                        have ha1 : a < h1.next := lt_of_lt_of_le ha hext1.1.1
                        have ha2 : a < h2.next := by rw [hsingle.1]; exact ha1
                        rw [hget a ha2 hca, hsingle.2 a hca, hext1.1.2 a ha]

/-- C5 (amended): `calculateElementPropertiesAtFrame` writes into a fresh
shallow copy of the bag, so when every animated property path is a single
top-level key (no dot) and every keyframe list is already sorted ascending by
frame, the call leaves the element — its bag, every nested object, and every
keyframe list — unchanged; the claimed purity fails in general because dotted
paths write through the copy into the element's own shared nested objects and
`keyframes.sort` reorders keyframe arrays in place. -/
theorem calculateElementProperties_pure_when_paths_flat
    (re : EasingImpl) (fuel : ℕ) (h : Heap) (element : ElementH) (frame : ℚ)
    (ca : ℕ) (h' : Heap) (e' : ElementH)
    (hflat : ∀ an ∈ element.animations, (splitPath an.property).length = 1)
    (hsorted : ∀ an ∈ element.animations,
      an.keyframes.Pairwise (fun x y => x.frame ≤ y.frame))
    (hr : calculateElementPropertiesAtFrameH re fuel h element frame =
      some (ca, h', e')) :
    ca = h.next ∧ e' = element ∧
      ∀ addr, addr < h.next → heapGet h' addr = heapGet h addr := by
  simp only [calculateElementPropertiesAtFrameH] at hr
  cases hbag : heapGet h element.propAddr with
  | none => rw [hbag] at hr; cases hr
  | some bag =>
      rw [hbag] at hr
      dsimp only at hr
      cases happ : applyAnimationsH re fuel frame (heapAlloc h bag).2
          (heapAlloc h bag).1 element.animations with
      | none => rw [happ] at hr; cases hr
      | some hra =>
          rw [happ] at hr
          dsimp only at hr
          obtain ⟨h1, anims'⟩ := hra
          cases hr
          obtain ⟨_, hanims, hget⟩ := applyAnimationsH_flat re fuel frame
            (heapAlloc h bag).2 element.animations (heapAlloc h bag).1 h1 anims'
            hflat hsorted happ
          refine ⟨rfl, by rw [hanims], ?_⟩
          intro addr haddr
          have hne : addr ≠ h.next := Nat.ne_of_lt haddr
          have hlt : addr < (heapAlloc h bag).1.next := by
            simp [heapAlloc]
            exact Nat.lt_succ_of_lt haddr
          rw [hget addr hlt hne, heapGet_heapAlloc_ne h bag addr hne]

/-- A heap holding an element's property bag at address 0 whose nested
`position` object lives at address 1. -/
def heapC5 : Heap :=
  { objs := [(0, [("position", .ref 1), ("opacity", .num 1)]),
             (1, [("x", .num 0), ("y", .num 0)])],
    next := 2 }

/-- An element owning the bag at address 0, animating the dotted path
`position.x` with a single keyframe of value 5. -/
def elemC5 : ElementH :=
  { id := "el", propAddr := 0,
    animations := [{ property := "position.x",
                     keyframes := [{ frame := 0, value := .num 5 }],
                     easing := .linear }] }

/-- C5, counterexample: evaluating `elemC5` at frame 0 writes the animated
value through the shallow-copied bag into the element's OWN nested `position`
object — address 1 holds `x = 5` afterwards where it held `x = 0` before —
so the element is mutated and the call is not pure. -/
theorem calculateElementProperties_mutates_element :
    ((calculateElementPropertiesAtFrameH re0 1 heapC5 elemC5 0).map
      (fun r => heapGet r.2.1 1)) = some (some [("x", .num 5), ("y", .num 0)]) ∧
    heapGet heapC5 1 = some [("x", .num 0), ("y", .num 0)] := by
  constructor
  · norm_num [calculateElementPropertiesAtFrameH, applyAnimationsH,
      calculateAnimationValueH, clampOrInterpH, sortByKey, insertByKey, foldFrameH,
      setNestedProperty, setNestedStep, heapGet, heapSet, heapAlloc, lookupAddr,
      objGetJ, objSetJ, splitPath, splitPathAux, heapC5, elemC5, re0]
  · rfl

/-- A heap holding a flat property bag at address 0. -/
def heapW5 : Heap := { objs := [(0, [("opacity", JSVal.num 1)])], next := 1 }

/-- An element animating the top-level key `opacity` between two sorted
keyframes. -/
def elemW5 : ElementH :=
  { id := "el", propAddr := 0,
    animations := [{ property := "opacity",
                     keyframes := [{ frame := 0, value := .num 0 },
                                   { frame := 10, value := .num 10 }],
                     easing := .linear }] }

/-- The heap after evaluating `elemW5` at frame 5: the fresh copy at address 1
holds the interpolated opacity, the original bag at address 0 is untouched. -/
def heapOutW5 : Heap :=
  { objs := [(1, [("opacity", JSVal.num 5)]), (0, [("opacity", JSVal.num 1)])],
    next := 2 }

/-- Witness for the amended C5 theorem: a dot-free animated path with sorted
keyframes leaves the element's own bag unchanged. -/
theorem calculateElementProperties_pure_when_paths_flat_witness :
    calculateElementPropertiesAtFrameH re0 5 heapW5 elemW5 5 =
      some (1, heapOutW5, elemW5) ∧
    heapGet heapOutW5 0 = heapGet heapW5 0 := by
  have hrun : calculateElementPropertiesAtFrameH re0 5 heapW5 elemW5 5 =
      some (1, heapOutW5, elemW5) := by
    norm_num [calculateElementPropertiesAtFrameH, applyAnimationsH,
      calculateAnimationValueH, clampOrInterpH, findSegmentValueH,
      interpolateValueH, sortByKey, insertByKey, foldFrameH, applyEasing,
      setNestedProperty, setNestedStep, heapGet, heapSet, heapAlloc, lookupAddr,
      objGetJ, objSetJ, splitPath, splitPathAux, heapW5, elemW5, heapOutW5, re0]
  have hflat : ∀ an ∈ elemW5.animations, (splitPath an.property).length = 1 := by
    intro an hmem
    simp only [elemW5, List.mem_singleton] at hmem
    subst hmem
    rfl
  have hsorted : ∀ an ∈ elemW5.animations,
      an.keyframes.Pairwise (fun x y => x.frame ≤ y.frame) := by
    intro an hmem
    simp only [elemW5, List.mem_singleton] at hmem
    subst hmem
    norm_num [List.pairwise_cons]
  have hmain := calculateElementProperties_pure_when_paths_flat re0 5 heapW5
    elemW5 5 1 heapOutW5 elemW5 hflat hsorted hrun
  exact ⟨hrun, hmain.2.2 0 (by norm_num [heapW5])⟩

/-!
The render-job orchestrator (`MotionRenderer`).  `renderProject` creates a
job record in the job table and runs the preview or final pipeline; the
execution is modelled as a small-step machine whose steps are the `await`
boundaries of the source (one step per rendered frame, plus the synchronous
submission prefix and the encode/optimize/finalize tail).
-/

/-- `RenderJob.status` values. -/
inductive JobStatus where
  | pending | processing | completed | failed
deriving DecidableEq, Repr

/-- The `RenderStage` union. -/
inductive RenderStage where
  | initializing | composing | rendering | encoding | optimizing | finalizing
deriving DecidableEq, Repr

/-- A `RenderJob` record: `Date` stamps are modelled as presence flags, and
`framesRendered` is the frame loop's position at the current await boundary
(stack state in the source). -/
structure RenderJob where
  id : String
  status : JobStatus
  progress : ℚ
  currentStage : RenderStage
  hasStartTime : Bool := false
  hasEndTime : Bool := false
  outputUrl : Option String := none
  error : Option String := none
  framesRendered : ℕ := 0
  totalFrames : ℕ := 0
deriving DecidableEq, Repr

/-- Generic first-occurrence association update (overwrite or append), the
model of `Map.set`. -/
def assocSet {α : Type} : List (String × α) → String → α → List (String × α)
  | [], k, v => [(k, v)]
  | (k', v') :: rest, k, v =>
      if k' = k then (k, v) :: rest else (k', v') :: assocSet rest k v

theorem lookupAssoc_assocSet_self {α : Type} (l : List (String × α)) (k : String)
    (v : α) : lookupAssoc (assocSet l k v) k = some v := by
  induction l with
  | nil => simp [assocSet, lookupAssoc]
  | cons kv rest ih =>
      cases kv with
      | mk k' v' =>
          by_cases h : k' = k
          · subst h; simp [assocSet, lookupAssoc]
          · simp [assocSet, lookupAssoc, h, ih]

/-- The `MotionRenderer` instance state: the job table, the `activeJobs` set
(a string list here), and the `maxConcurrentJobs` field.  The source declares
the latter two but `renderProject` never consults them. -/
structure RendererState where
  jobs : List (String × RenderJob)
  activeJobs : List String
  maxConcurrentJobs : ℕ
deriving DecidableEq, Repr

/-- A fresh `MotionRenderer`: empty table, empty active set, cap 2. -/
def emptyRenderer : RendererState :=
  { jobs := [], activeJobs := [], maxConcurrentJobs := 2 }

/-- `MotionRenderer.updateJobStage` (sans the `onStageChange` callback). -/
def updateJobStage (job : RenderJob) (stage : RenderStage) : RenderJob :=
  { job with currentStage := stage }

/-- `MotionRenderer.updateJobProgress`: clamp into `[0, 100]`. -/
def updateJobProgress (job : RenderJob) (progress : ℚ) : RenderJob :=
  { job with progress := min 100 (max 0 progress) }

/-- The synchronous prefix of `renderProject` + `renderFinal` up to the first
`await` of the frame loop: create the job (`pending`, `initializing`, start
time stamped), store it in the table, set stage `composing`, load the project,
set stage `rendering`.  Faithful to the source, there is NO admission check:
neither `maxConcurrentJobs` nor `activeJobs` is read or written, and the job's
status is never set to `processing`. -/
def submitFinalSync (s : RendererState) (jobId : String) (totalFrames : ℕ) :
    RendererState :=
  let job : RenderJob :=
    { id := jobId, status := .pending, progress := 0,
      currentStage := .initializing, hasStartTime := true,
      totalFrames := totalFrames }
  let job := updateJobStage job .composing
  let job := updateJobStage job .rendering
  { s with jobs := assocSet s.jobs jobId job }

/-- One iteration of `renderFinal`'s frame loop (one `await` boundary):
render the frame and set `progress = (frame / totalFrames) * 80`. -/
def stepFrame (s : RendererState) (jobId : String) : RendererState :=
  match lookupAssoc s.jobs jobId with
  | none => s
  | some job =>
      if job.framesRendered < job.totalFrames then
        let progress := ((job.framesRendered : ℚ) / (job.totalFrames : ℚ)) * 80
        let job := updateJobProgress
          { job with framesRendered := job.framesRendered + 1 } progress
        { s with jobs := assocSet s.jobs jobId job }
      else s

/-- The tail of `renderFinal` after the frame loop: stage `encoding`, encode,
progress 90, stage `optimizing`, optimize, progress 100, stage `finalizing`,
status `completed`, output URL, end time.  (Enabled only once the loop has
consumed every frame.) -/
def finishJob (s : RendererState) (jobId : String) : RendererState :=
  match lookupAssoc s.jobs jobId with
  | none => s
  | some job =>
      if job.framesRendered < job.totalFrames then s
      else
        let job := updateJobStage job .encoding
        let job := updateJobProgress job 90
        let job := updateJobStage job .optimizing
        let job := updateJobProgress job 100
        let job := updateJobStage job .finalizing
        let job := { job with
          status := .completed
          outputUrl := some ("/api/videos/" ++ jobId)
          hasEndTime := true }
        { s with jobs := assocSet s.jobs jobId job }

/-- `MotionRenderer.cancelJob`: a `processing` job becomes `failed` with the
error `'Cancelled by user'`, its end time stamped, and its id deleted from
`activeJobs`; anything else returns `false` unchanged. -/
def cancelJob (s : RendererState) (jobId : String) : RendererState × Bool :=
  match lookupAssoc s.jobs jobId with
  | some job =>
      if job.status = .processing then
        let job := { job with
          status := .failed
          error := some "Cancelled by user"
          hasEndTime := true }
        ({ s with jobs := assocSet s.jobs jobId job,
                  activeJobs := s.activeJobs.filter (fun j => j ≠ jobId) }, true)
      else (s, false)
  | none => (s, false)

/-- `renderPreview`'s `previewFrames` local:
`Math.min(project.duration, 150)`. -/
def previewFrames (duration : ℕ) : ℕ := min duration 150

/-- `renderPreview`'s `frameStep` local:
`Math.max(1, Math.floor(duration / previewFrames))` (floor, not ceil). -/
def previewFrameStep (duration : ℕ) : ℕ :=
  max 1 (duration / previewFrames duration)

/-- The iteration sequence of
`for (let frame = 0; frame < duration; frame += frameStep)` —
one entry per composed preview frame. -/
def frameLoopAux (duration step : ℕ) : ℕ → ℕ → List ℕ
  | 0, _ => []
  | fuel + 1, frame =>
      if frame < duration then frame :: frameLoopAux duration step fuel (frame + step)
      else []

/-- The frames `renderPreview` composes for a project of the given duration. -/
def previewFrameList (duration : ℕ) : List ℕ :=
  frameLoopAux duration (previewFrameStep duration) duration 0

set_option maxRecDepth 4000 in
/-- C6: for a 200-frame project the code's stride is
`max(1, floor(200 / min(200, 150))) = 1`, not the claimed
`ceil(200 / 150) = 2`, so the preview loop composes all 200 frames —
exceeding the 150-frame budget the code's own comment
("Max 5 seconds at 30fps") promises. -/
theorem renderPreview_exceeds_frame_budget :
    previewFrameStep 200 = 1 ∧
    (200 + 150 - 1) / 150 = 2 ∧
    (previewFrameList 200).length = 200 ∧
    150 < (previewFrameList 200).length := by
  refine ⟨rfl, rfl, ?_, ?_⟩
  · decide
  · decide

/-- The orchestrator state after three final renders of a 300-frame project
are submitted back-to-back. -/
def stateC1 : RendererState :=
  submitFinalSync (submitFinalSync (submitFinalSync emptyRenderer "j1" 300)
    "j2" 300) "j3" 300

/-- C1: `renderProject` performs no admission: after three submissions
against the default cap of 2, all three jobs have entered the rendering
stage immediately (none queued), no job ever has status `processing` (the
count is 0 vacuously, not because of the cap), and the declared
`maxConcurrentJobs`/`activeJobs` fields were never consulted or updated. -/
theorem renderProject_ignores_admission_cap :
    ((lookupAssoc stateC1.jobs "j1").map (fun j => j.currentStage) =
      some .rendering) ∧
    ((lookupAssoc stateC1.jobs "j2").map (fun j => j.currentStage) =
      some .rendering) ∧
    ((lookupAssoc stateC1.jobs "j3").map (fun j => j.currentStage) =
      some .rendering) ∧
    (stateC1.jobs.filter (fun p => p.2.status = .processing)).length = 0 ∧
    stateC1.maxConcurrentJobs = 2 ∧
    stateC1.activeJobs = [] ∧
    (∀ (s : RendererState) (jobId : String) (total : ℕ),
      (lookupAssoc (submitFinalSync s jobId total).jobs jobId).map
        (fun j => (j.status, j.currentStage)) = some (.pending, .rendering)) := by
  refine ⟨by decide, by decide, by decide, by decide, rfl, rfl, ?_⟩
  intro s jobId total
  show (lookupAssoc (assocSet s.jobs jobId _) jobId).map _ = _
  rw [lookupAssoc_assocSet_self]
  rfl

/-- Case-sensitive substring test at one position. -/
def charsStartWith : List Char → List Char → Bool
  | [], _ => true
  | _ :: _, [] => false
  | c :: cs, d :: ds => c == d && charsStartWith cs ds

/-- Case-sensitive substring containment over character lists. -/
def charsContain (needle : List Char) : List Char → Bool
  | [] => needle.isEmpty
  | d :: ds => charsStartWith needle (d :: ds) || charsContain needle ds

/-- JS `hay.includes(needle)`: case-sensitive substring containment. -/
def strContains (hay needle : String) : Bool := charsContain needle.data hay.data

/-- A job table holding one `processing` job `"j"`. -/
def stateC8 : RendererState :=
  { jobs := [("j", { id := "j", status := .processing, progress := 50,
                     currentStage := .rendering, totalFrames := 10 })],
    activeJobs := ["j"], maxConcurrentJobs := 2 }

/-- C8, counterexample: cancelling the `processing` job stores the error
message `"Cancelled by user"`, which does NOT contain the (lower-case)
substring `"cancel"` the claim requires. -/
theorem cancelJob_error_lacks_lowercase_cancel :
    ((lookupAssoc (cancelJob stateC8 "j").1.jobs "j").map (fun j => j.error)) =
      some (some "Cancelled by user") ∧
    strContains "Cancelled by user" "cancel" = false := by
  exact ⟨by decide, by decide⟩

/-- C8 (amended): cancelling a job whose status is `processing` returns
`true`, transitions it to `failed` with the error message
`"Cancelled by user"` — which contains `"Cancel"` (capital C, not the
lower-case `"cancel"`) — stamps its end time, and removes its id from the
`activeJobs` set. -/
theorem cancelJob_processing_fails_with_cancelled_message :
    ∀ (s : RendererState) (jobId : String) (job : RenderJob),
      lookupAssoc s.jobs jobId = some job →
      job.status = .processing →
      (cancelJob s jobId).2 = true ∧
      ((lookupAssoc (cancelJob s jobId).1.jobs jobId).map (fun j => j.status)) =
        some .failed ∧
      ((lookupAssoc (cancelJob s jobId).1.jobs jobId).map (fun j => j.error)) =
        some (some "Cancelled by user") ∧
      strContains "Cancelled by user" "Cancel" = true ∧
      ((lookupAssoc (cancelJob s jobId).1.jobs jobId).map (fun j => j.hasEndTime)) =
        some true ∧
      jobId ∉ (cancelJob s jobId).1.activeJobs := by
  intro s jobId job hl hst
  have h2 : (cancelJob s jobId).2 = true := by
    simp [cancelJob, hl, hst]
  have hjobs : (cancelJob s jobId).1.jobs = assocSet s.jobs jobId
      { job with status := .failed, error := some "Cancelled by user", hasEndTime := true } := by
    simp [cancelJob, hl, hst]
  have hact : (cancelJob s jobId).1.activeJobs =
      s.activeJobs.filter (fun j => j ≠ jobId) := by
    simp [cancelJob, hl, hst]
  refine ⟨h2, ?_, ?_, by decide, ?_, ?_⟩
  · rw [hjobs, lookupAssoc_assocSet_self]
    rfl
  · rw [hjobs, lookupAssoc_assocSet_self]
    rfl
  · rw [hjobs, lookupAssoc_assocSet_self]
    rfl
  · rw [hact]
    intro hmem
    have := (List.mem_filter.mp hmem).2
    simp at this

/-- Witness for the amended C8 theorem, applied to the concrete table
`stateC8`. -/
theorem cancelJob_processing_fails_witness :
    (cancelJob stateC8 "j").2 = true ∧
    ((lookupAssoc (cancelJob stateC8 "j").1.jobs "j").map (fun j => j.status)) =
      some .failed ∧
    "j" ∉ (cancelJob stateC8 "j").1.activeJobs := by
  have h := cancelJob_processing_fails_with_cancelled_message stateC8 "j"
    { id := "j", status := .processing, progress := 50,
      currentStage := .rendering, totalFrames := 10 } rfl rfl
  exact ⟨h.1, h.2.1, h.2.2.2.2.2⟩

/-- Run `n` frame steps, collecting the state after each step and the final
state. -/
def runSteps (jobId : String) : ℕ → RendererState → RendererState × List RendererState
  | 0, s => (s, [])
  | n + 1, s =>
      let s1 := stepFrame s jobId
      let r := runSteps jobId n s1
      (r.1, s1 :: r.2)

/-- Every orchestrator state a final render passes through, at `await`
granularity: after submission, after each rendered frame, and after the
encode/optimize/finalize tail. -/
def finalRenderStates (jobId : String) (total : ℕ) : List RendererState :=
  let s0 := submitFinalSync emptyRenderer jobId total
  let r := runSteps jobId total s0
  s0 :: r.2 ++ [finishJob r.1 jobId]

/-- The job's status as observed at each point of a final render. -/
def jobStatusTrace (jobId : String) (total : ℕ) : List (Option JobStatus) :=
  (finalRenderStates jobId total).map
    (fun s => (lookupAssoc s.jobs jobId).map (fun j => j.status))

theorem runSteps_pending (jobId : String) :
    ∀ (n : ℕ) (s : RendererState) (job : RenderJob),
      lookupAssoc s.jobs jobId = some job →
      job.status = .pending →
      job.framesRendered + n = job.totalFrames →
      (∃ jf, lookupAssoc (runSteps jobId n s).1.jobs jobId = some jf ∧
        jf.status = .pending ∧ jf.framesRendered = jf.totalFrames) ∧
      ∀ st ∈ (runSteps jobId n s).2,
        ∃ j, lookupAssoc st.jobs jobId = some j ∧ j.status = .pending := by
  intro n
  induction n with
  | zero =>
      intro s job hl hst hfr
      refine ⟨⟨job, hl, hst, by omega⟩, ?_⟩
      intro st hst'
      simp [runSteps] at hst'
  | succ m ih =>
      intro s job hl hst hfr
      have hlt : job.framesRendered < job.totalFrames := by omega
      have hl1 : lookupAssoc (stepFrame s jobId).jobs jobId = some
          (updateJobProgress
            { job with framesRendered := job.framesRendered + 1 }
            (((job.framesRendered : ℚ) / (job.totalFrames : ℚ)) * 80)) := by
        simp [stepFrame, hl, hlt, lookupAssoc_assocSet_self]
      have hst1 : (updateJobProgress
          { job with framesRendered := job.framesRendered + 1 }
          (((job.framesRendered : ℚ) / (job.totalFrames : ℚ)) * 80)).status =
          .pending := hst
      have hfr1 : (updateJobProgress
          { job with framesRendered := job.framesRendered + 1 }
          (((job.framesRendered : ℚ) / (job.totalFrames : ℚ)) * 80)).framesRendered
          + m = (updateJobProgress
          { job with framesRendered := job.framesRendered + 1 }
          (((job.framesRendered : ℚ) / (job.totalFrames : ℚ)) * 80)).totalFrames := by
        show job.framesRendered + 1 + m = job.totalFrames
        omega
      obtain ⟨hfin, htr⟩ := ih (stepFrame s jobId) _ hl1 hst1 hfr1
      constructor
      · simpa [runSteps] using hfin
      · intro st hstmem
        simp only [runSteps] at hstmem
        rcases List.mem_cons.mp hstmem with h | h
        · subst h
          exact ⟨_, hl1, hst1⟩
        · exact htr st h

theorem getLast?_append_singleton {α : Type} (l : List α) (y : α) :
    (l ++ [y]).getLast? = some y := by
  induction l with
  | nil => rfl
  | cons x rest ih =>
      cases rest with
      | nil => rfl
      | cons b t =>
          rw [List.cons_append, List.cons_append, List.getLast?_cons_cons,
            ← List.cons_append]
          exact ih

/-- C2: the claimed state machine is never realised — along a complete final
render, the job's status starts at `pending` and ends at `completed`, and at
NO observable point is it `processing`: `renderProject` never assigns
`'processing'`, so jobs jump from `pending` straight to `completed`. -/
theorem renderFinal_job_never_processing :
    ∀ (jobId : String) (total : ℕ),
      some JobStatus.processing ∉ jobStatusTrace jobId total ∧
      (jobStatusTrace jobId total).head? = some (some .pending) ∧
      (jobStatusTrace jobId total).getLast? = some (some .completed) := by
  intro jobId total
  obtain ⟨j0, hl0, hst0, hfr0⟩ : ∃ j,
      lookupAssoc (submitFinalSync emptyRenderer jobId total).jobs jobId = some j ∧
      j.status = .pending ∧ j.framesRendered + total = j.totalFrames := by
    refine ⟨_, lookupAssoc_assocSet_self _ _ _, rfl, ?_⟩
    show (0 : ℕ) + total = total
    omega
  obtain ⟨⟨jf, hlf, hstf, hfrf⟩, htr⟩ :=
    runSteps_pending jobId total (submitFinalSync emptyRenderer jobId total)
      j0 hl0 hst0 hfr0
  have hfin : ∃ jc, lookupAssoc
      (finishJob (runSteps jobId total (submitFinalSync emptyRenderer jobId total)).1
        jobId).jobs jobId = some jc ∧ jc.status = .completed := by
    simp only [finishJob]
    rw [hlf]
    dsimp only
    rw [if_neg (by omega)]
    exact ⟨_, lookupAssoc_assocSet_self _ _ _, rfl⟩
  obtain ⟨jc, hlc, hstc⟩ := hfin
  have htrace : jobStatusTrace jobId total =
      ((lookupAssoc (submitFinalSync emptyRenderer jobId total).jobs jobId).map
        (fun j => j.status)) ::
      ((runSteps jobId total (submitFinalSync emptyRenderer jobId total)).2.map
        (fun s => (lookupAssoc s.jobs jobId).map (fun j => j.status)) ++
       [(lookupAssoc
          (finishJob
            (runSteps jobId total (submitFinalSync emptyRenderer jobId total)).1
            jobId).jobs jobId).map (fun j => j.status)]) := by
    simp [jobStatusTrace, finalRenderStates]
  refine ⟨?_, ?_, ?_⟩
  · intro hmem
    rw [htrace] at hmem
    rcases List.mem_cons.mp hmem with h | h
    · rw [hl0] at h
      simp [hst0] at h
    · rcases List.mem_append.mp h with h | h
      · obtain ⟨st, hstm, hfst⟩ := List.mem_map.mp h
        obtain ⟨j, hj, hjst⟩ := htr st hstm
        rw [hj] at hfst
        simp [hjst] at hfst
      · rcases List.mem_singleton.mp h with h
        rw [hlc] at h
        simp [hstc] at h
  · rw [htrace, List.head?_cons, hl0]
    simp [hst0]
  · rw [htrace, ← List.cons_append, getLast?_append_singleton, hlc]
    simp [hstc]

end MotionGraphics
